import Mathlib

/-!
# Alternator field regulator: trend tracker and threshold/trend regulation

A shallow embedding of `src/main/regulateFieldPWM.cpp` (trend tracker and
threshold/trend regulation) and of `src/main/regulateFieldPWM_2.h` (PID
regulator).

Modelling conventions:

* `float` values are exact rationals (`ℚ`); the literals `0.4`, `0.2`, `1.0`,
  `10.0`, `-0.3` are the corresponding decimal fractions.
* C `int` values are `Int`.  C's `%` truncates towards zero and is `Int.tmod`.
  Overflow of `int`, which C leaves undefined, is outside the model: the only
  arithmetic on `pwmDuty` is `- 10`, `- 5` and `+ 5`, each followed by a clamp,
  and the arithmetic on `trendIndex` stays within `0 .. 9`.
* The file-scope variables `tempHistory`, `voltHistory`, `ampHistory`,
  `trendIndex` and the external `pwmDuty` form the explicit state `Globals`.
* An array access with an index outside `0 .. TREND_SIZE-1` has no defined
  result in C; it is `none` here, so every function that indexes an array
  returns an `Option`.
* `addLog` is modelled by the list of messages passed to it during the call,
  `analogWrite(FIELD_PIN, v)` by the optional value written.
* The sensor reads and the `String::toFloat` conversions of the configured
  limits (`config.h` is not part of the sources) are inputs of the tick.
* A `float` quotient whose divisor is zero is not a rational: as in IEEE
  arithmetic it is an infinity, or a NaN for `0 / 0`.  The values computed from
  the quotient of `RegulateFieldPWM::update` are therefore `FloatVal`s, and the
  `float` that method returns is `some` number or `none` for a NaN.  A zero
  divisor is `+0.0`, the value of the literal `0`; the rationals have no
  negative zero.  `computeTrend` divides by the constant `trendSeconds`, which
  is 4, so its quotient is written with `/`.
-/

namespace AlternatorReg

/-! ## State -/

/-- The macro `TREND_SIZE` (line 19). -/
def TREND_SIZE : Int := 5

/-- A `float[TREND_SIZE]` array. -/
abbrev History := Fin 5 → ℚ

/-- The array read `history[i]` for a C `int` index `i`. -/
def readSlot (history : History) (i : Int) : Option ℚ :=
  if hi : 0 ≤ i ∧ i < 5 then some (history ⟨i.toNat, by omega⟩) else none

/-- The array write `history[i] = v` for a C `int` index `i`. -/
def writeSlot (history : History) (i : Int) (v : ℚ) : Option History :=
  if hi : 0 ≤ i ∧ i < 5 then some (Function.update history ⟨i.toNat, by omega⟩ v) else none

/-- The mutable variables the module works on (lines 17 and 20-23). -/
structure Globals where
  tempHistory : History
  voltHistory : History
  ampHistory : History
  trendIndex : Int
  pwmDuty : Int

/-- The state at program start: zero-initialised statics, `trendIndex = 0`,
and whatever duty the main sketch starts with. -/
def startGlobals (duty : Int) : Globals :=
  { tempHistory := fun _ => 0, voltHistory := fun _ => 0, ampHistory := fun _ => 0,
    trendIndex := 0, pwmDuty := duty }

/-- The cursor is a valid index of the three arrays. -/
def WellFormed (g : Globals) : Prop := 0 ≤ g.trendIndex ∧ g.trendIndex < TREND_SIZE

instance (g : Globals) : Decidable (WellFormed g) := by
  unfold WellFormed; infer_instance

/-! ## Trend tracker (lines 25-49) -/

/-- One iteration of the loop body of `initTrendBuffers` (lines 28-30). -/
def initTrendBuffersBody (g : Globals) (i : Int) : Option Globals := do
  let t ← writeSlot g.tempHistory i 0
  let v ← writeSlot g.voltHistory i 0
  let a ← writeSlot g.ampHistory i 0
  pure { g with tempHistory := t, voltHistory := v, ampHistory := a }

/-- The loop `for (int i = 0; i < TREND_SIZE; i++)` of `initTrendBuffers`,
started at `i`, with `fuel` bounding the number of iterations. -/
def initTrendBuffersLoop : Nat → Int → Globals → Option Globals
  | 0, _, _ => none
  | fuel + 1, i, g =>
    if i < TREND_SIZE then
      (initTrendBuffersBody g i).bind (fun g1 => initTrendBuffersLoop fuel (i + 1) g1)
    else some g

/-- `initTrendBuffers` (lines 26-33). -/
def initTrendBuffers (g : Globals) : Option Globals := do
  let g1 ← initTrendBuffersLoop 6 0 g
  pure { g1 with trendIndex := 0 }

/-- `updateTrends` (lines 36-41). -/
def updateTrends (g : Globals) (tempNow voltNow ampNow : ℚ) : Option Globals := do
  let t ← writeSlot g.tempHistory g.trendIndex tempNow
  let v ← writeSlot g.voltHistory g.trendIndex voltNow
  let a ← writeSlot g.ampHistory g.trendIndex ampNow
  pure { g with tempHistory := t, voltHistory := v, ampHistory := a,
                trendIndex := (g.trendIndex + 1).tmod TREND_SIZE }

/-- The local `seconds` of `computeTrend` (line 47): `(TREND_SIZE - 1) * 1.0`. -/
def trendSeconds : ℚ := ((TREND_SIZE - 1 : Int) : ℚ) * 1.0

/-- `computeTrend` (lines 44-49); `trendIndex` is the global it reads. -/
def computeTrend (trendIndex : Int) (history : History) : Option ℚ := do
  let oldest := (trendIndex + 1).tmod TREND_SIZE
  let newestVal ← readSlot history ((trendIndex - 1 + TREND_SIZE).tmod TREND_SIZE)
  let oldestVal ← readSlot history oldest
  let delta := newestVal - oldestVal
  let seconds := trendSeconds
  pure (delta / seconds)

/-! ## Threshold/trend regulation (lines 53-104) -/

/-- The values `regulateFieldPWM` obtains from its collaborators: the three
sensor readings (lines 54-56) and the three configured limits (lines 63-65). -/
structure Inputs where
  tempC : ℚ
  volts : ℚ
  amps : ℚ
  tempLimit : ℚ
  voltTarget : ℚ
  ampLimit : ℚ

/-- What one call of `regulateFieldPWM` produces. -/
structure Outcome where
  /-- The returned `int`. -/
  ret : Int
  /-- The messages given to `addLog`, in call order. -/
  log : List String
  /-- The value given to `analogWrite(FIELD_PIN, _)`, if it was called. -/
  pinWrite : Option Int
  /-- The variables after the call. -/
  globals : Globals

/-- `regulateFieldPWM` (lines 53-104).  The pair threaded through the rules is
the running `pwmDuty` and the messages logged so far. -/
def regulateFieldPWM (g : Globals) (inp : Inputs) : Option Outcome := do
  let volts := inp.volts
  let amps := inp.amps
  let tempC := inp.tempC
  let g1 ← updateTrends g tempC volts amps
  let tempTrend ← computeTrend g1.trendIndex g1.tempHistory
  let voltTrend ← computeTrend g1.trendIndex g1.voltHistory
  let ampTrend ← computeTrend g1.trendIndex g1.ampHistory
  let tempLimit := inp.tempLimit
  let voltTarget := inp.voltTarget
  let ampLimit := inp.ampLimit
  if tempC ≥ tempLimit then
    pure { ret := 0, log := ["Overtemp Derate"], pinWrite := none, globals := g1 }
  else
    let s : Int × List String := (g1.pwmDuty, [])
    let s := if amps > ampLimit then (max (s.1 - 10) 0, s.2 ++ ["Overcurrent"]) else s
    let s :=
      if volts < voltTarget - 0.4 then (min (s.1 + 5) 255, s.2)
      else if volts > voltTarget + 0.2 then (max (s.1 - 5) 0, s.2)
      else s
    let s := if tempTrend > 1.0 then (max (s.1 - 10) 0, s.2 ++ ["Temp rising fast"]) else s
    let s := if ampTrend > 10.0 then (max (s.1 - 5) 0, s.2 ++ ["Amp rising fast"]) else s
    let s := if voltTrend < -0.3 then (max (s.1 - 5) 0, s.2 ++ ["Voltage dropping"]) else s
    pure { ret := s.1, log := s.2, pinWrite := some s.1,
           globals := { g1 with pwmDuty := s.1 } }

/-! ## Call sequences -/

/-- The arguments of one `updateTrends` call. -/
structure Sample where
  tempNow : ℚ
  voltNow : ℚ
  ampNow : ℚ

/-- Consecutive `updateTrends` calls, one per sample, first sample first. -/
def recordAll (g : Globals) : List Sample → Option Globals
  | [] => some g
  | s :: rest => (updateTrends g s.tempNow s.voltNow s.ampNow).bind (fun g1 => recordAll g1 rest)

/-- Consecutive `regulateFieldPWM` calls, one per input; yields the outcome
of every call, first call first. -/
def runTicks (g : Globals) : List Inputs → Option (List Outcome)
  | [] => some []
  | inp :: rest =>
    (regulateFieldPWM g inp).bind (fun o => (runTicks o.globals rest).map (fun os => o :: os))

/-- The three tracked metrics. -/
inductive Metric where
  | temperature
  | voltage
  | current
  deriving DecidableEq

/-- The history array of a metric. -/
def Metric.history : Metric → Globals → History
  | .temperature, g => g.tempHistory
  | .voltage, g => g.voltHistory
  | .current, g => g.ampHistory

/-- The component of a sample that belongs to a metric. -/
def Metric.value : Metric → Sample → ℚ
  | .temperature, s => s.tempNow
  | .voltage, s => s.voltNow
  | .current, s => s.ampNow

/-! ## PID regulator (`regulateFieldPWM_2.h`, lines 13-87) -/

/-- The data members of class `RegulateFieldPWM` (lines 37-44). -/
structure RegulateFieldPWM where
  kp_ : ℚ
  ki_ : ℚ
  kd_ : ℚ
  dt_ : ℚ
  targetVoltage_ : ℚ
  prevError_ : ℚ
  integral_ : ℚ

/-- The constructor `RegulateFieldPWM::RegulateFieldPWM` (lines 56-58); inside
the namespace of the structure its own name would hide the type. -/
def RegulateFieldPWM.ctor (kp ki kd dt : ℚ) : RegulateFieldPWM :=
  { kp_ := kp, ki_ := ki, kd_ := kd, dt_ := dt,
    targetVoltage_ := 0, prevError_ := 0, integral_ := 0 }

/-- `RegulateFieldPWM::setTargetVoltage` (lines 60-65). -/
def RegulateFieldPWM.setTargetVoltage (self : RegulateFieldPWM) (targetVoltage : ℚ) :
    RegulateFieldPWM :=
  { self with targetVoltage_ := targetVoltage, prevError_ := 0, integral_ := 0 }

/-- A `float` that may come out of a division: a number, an infinity or a NaN. -/
inductive FloatVal where
  | finite (q : ℚ)
  | posInf
  | negInf
  | nan

/-- The `float` quotient `a / b`: for `b = 0` it is `+inf` if `a > 0`, `-inf` if
`a < 0` and NaN if `a = 0`. -/
def FloatVal.div (a b : ℚ) : FloatVal :=
  if b = 0 then
    if 0 < a then FloatVal.posInf else if a < 0 then FloatVal.negInf else FloatVal.nan
  else FloatVal.finite (a / b)

/-- The `float` product `k * v` of a number and a quotient: an infinity keeps
or flips its sign with the sign of `k`, and `0 * inf` is NaN. -/
def FloatVal.scale (k : ℚ) : FloatVal → FloatVal
  | FloatVal.finite q => FloatVal.finite (k * q)
  | FloatVal.posInf =>
    if 0 < k then FloatVal.posInf else if k < 0 then FloatVal.negInf else FloatVal.nan
  | FloatVal.negInf =>
    if 0 < k then FloatVal.negInf else if k < 0 then FloatVal.posInf else FloatVal.nan
  | FloatVal.nan => FloatVal.nan

/-- The `float` sum `x + v` of a number and a `FloatVal`: an infinity and a NaN
absorb the number. -/
def FloatVal.addFinite (x : ℚ) : FloatVal → FloatVal
  | FloatVal.finite q => FloatVal.finite (x + q)
  | FloatVal.posInf => FloatVal.posInf
  | FloatVal.negInf => FloatVal.negInf
  | FloatVal.nan => FloatVal.nan

/-- `std::clamp(v, lo, hi)`: `lo` if `v < lo`, else `hi` if `hi < v`, else `v`. -/
def clamp (v lo hi : ℚ) : ℚ := if v < lo then lo else if hi < v then hi else v

/-- `std::clamp(v, lo, hi)` for a `FloatVal` `v` and numbers `lo <= hi`: for
`+inf` the test `v < lo` fails and `hi < v` holds, for `-inf` the test `v < lo`
holds, and for a NaN both tests fail, so the NaN is returned. -/
def FloatVal.clamp (v : FloatVal) (lo hi : ℚ) : FloatVal :=
  match v with
  | FloatVal.finite q => FloatVal.finite (AlternatorReg.clamp q lo hi)
  | FloatVal.posInf => FloatVal.finite hi
  | FloatVal.negInf => FloatVal.finite lo
  | FloatVal.nan => FloatVal.nan

/-- A returned `float` as a number, `none` standing for a NaN or an infinity. -/
def FloatVal.number : FloatVal → Option ℚ
  | FloatVal.finite q => some q
  | _ => none

/-- `RegulateFieldPWM::update` (lines 67-87): the returned duty and the object
after the call. -/
def RegulateFieldPWM.update (self : RegulateFieldPWM) (currentVoltage : ℚ) :
    Option ℚ × RegulateFieldPWM :=
  let error := self.targetVoltage_ - currentVoltage
  let self1 := { self with integral_ := self.integral_ + error * self.dt_ }
  let derivative := FloatVal.div (error - self1.prevError_) self1.dt_
  let self2 := { self1 with prevError_ := error }
  let output := FloatVal.addFinite (self2.kp_ * error + self2.ki_ * self2.integral_)
    (FloatVal.scale self2.kd_ derivative)
  let duty := output
  let duty := FloatVal.clamp duty 0 1
  (duty.number, self2)

/-- Consecutive `update` calls, one per reading, first reading first: the
returned duties and the object after the last call. -/
def RegulateFieldPWM.updates (self : RegulateFieldPWM) :
    List ℚ → List (Option ℚ) × RegulateFieldPWM
  | [] => ([], self)
  | v :: rest =>
    let r := self.update v
    let rs := r.2.updates rest
    (r.1 :: rs.1, rs.2)

/-- A call of one of the two methods of a constructed controller. -/
inductive PidCall where
  | setTargetVoltage (targetVoltage : ℚ)
  | update (currentVoltage : ℚ)

/-- The object after a sequence of method calls, first call first. -/
def RegulateFieldPWM.calls (self : RegulateFieldPWM) : List PidCall → RegulateFieldPWM
  | [] => self
  | PidCall.setTargetVoltage v :: rest => (self.setTargetVoltage v).calls rest
  | PidCall.update v :: rest => (self.update v).2.calls rest

/-! ## Reference definitions used to state the properties -/

/-- The array slot an `int` index denotes once reduced modulo the array size. -/
def slot (i : Int) : Fin 5 := ⟨(i % 5).toNat, by omega⟩

/-- Rules 2 to 6 of the regulation policy as the specification words them,
applied in that order to the duty `d`, for given trend values. -/
def specRuleDuty (inp : Inputs) (tempTrend voltTrend ampTrend : ℚ) (d : Int) : Int :=
  let d := if inp.amps > inp.ampLimit then max (d - 10) 0 else d
  let d :=
    if inp.volts < inp.voltTarget - 0.4 then min (d + 5) 255
    else if inp.volts > inp.voltTarget + 0.2 then max (d - 5) 0
    else d
  let d := if tempTrend > 1.0 then max (d - 10) 0 else d
  let d := if ampTrend > 10.0 then max (d - 5) 0 else d
  let d := if voltTrend < -0.3 then max (d - 5) 0 else d
  d

/-- The events of rules 2, 4, 5 and 6 as the specification words them: the
labels, in rule order, of the rules whose condition holds. -/
def specRuleEvents (inp : Inputs) (tempTrend voltTrend ampTrend : ℚ) : List String :=
  (([("Overcurrent", decide (inp.amps > inp.ampLimit)),
     ("Temp rising fast", decide (tempTrend > 1.0)),
     ("Amp rising fast", decide (ampTrend > 10.0)),
     ("Voltage dropping", decide (voltTrend < -0.3))] : List (String × Bool)).filter
    (fun e => e.2)).map (fun e => e.1)

/-- The trend as the specification words it: newest slot (cursor - 1) minus
the slot about to be overwritten next (the cursor), over `(N - 1)` ticks. -/
def specTrend (cursor : Int) (history : History) : ℚ :=
  (history (slot (cursor - 1)) - history (slot cursor)) / ((5 - 1) * 1)

/-- The ring-buffer representation as the specification words it, for the
state `g` reached by recording `samples` (first sample first, `k` of them) from
zeroed buffers: the cursor is `k mod 5`; for `j < min k 5` slot
`(k-1-j) mod 5` of each buffer holds the matching component of the sample
recorded `j` calls before the last; every slot not yet written holds 0. -/
def RingRepresents (g : Globals) (samples : List Sample) : Prop :=
  g.trendIndex = ((samples.length % 5 : Nat) : Int)
  ∧ (∀ j, j < min samples.length 5 →
      ∃ s, samples[samples.length - 1 - j]? = some s
        ∧ ∀ m : Metric,
            m.history g ⟨(samples.length - 1 - j) % 5, Nat.mod_lt _ (by decide)⟩ = m.value s)
  ∧ (∀ i : Fin 5, samples.length ≤ i.val → ∀ m : Metric, m.history g i = 0)

/-- The sample stream `s_1, s_2, ...` of a metric as the specification numbers
it (from 1, first recorded sample first), with `s_j` taken as 0 for `j <= 0`. -/
def sampleAt (m : Metric) (samples : List Sample) (j : Int) : ℚ :=
  if 0 < j then ((samples[(j - 1).toNat]?).map m.value).getD 0 else 0

/-- The clamp `clamp(x, lo, hi)` as the specification uses it: `x` limited to
the interval from `lo` to `hi`. -/
def specClamp (x lo hi : ℚ) : ℚ := max lo (min x hi)

/-! ## Closed forms (proved equal to the code on states with a valid cursor) -/

/-- The state `updateTrends` leaves when the cursor is a valid index. -/
def recordSample (g : Globals) (t v a : ℚ) : Globals :=
  { tempHistory := Function.update g.tempHistory (slot g.trendIndex) t
    voltHistory := Function.update g.voltHistory (slot g.trendIndex) v
    ampHistory := Function.update g.ampHistory (slot g.trendIndex) a
    trendIndex := (g.trendIndex + 1) % 5
    pwmDuty := g.pwmDuty }

/-- The value `computeTrend` returns when the cursor `c` is a valid index. -/
def slope (c : Int) (history : History) : ℚ :=
  (history (slot (c - 1)) - history (slot (c + 1))) / 4

/-- The outcome of `regulateFieldPWM` when the cursor is a valid index. -/
def tickOutcome (g : Globals) (inp : Inputs) : Outcome :=
  let g1 := recordSample g inp.tempC inp.volts inp.amps
  let tT := slope g1.trendIndex g1.tempHistory
  let vT := slope g1.trendIndex g1.voltHistory
  let aT := slope g1.trendIndex g1.ampHistory
  if inp.tempC ≥ inp.tempLimit then
    { ret := 0, log := ["Overtemp Derate"], pinWrite := none, globals := g1 }
  else
    { ret := specRuleDuty inp tT vT aT g1.pwmDuty
      log := specRuleEvents inp tT vT aT
      pinWrite := some (specRuleDuty inp tT vT aT g1.pwmDuty)
      globals := { g1 with pwmDuty := specRuleDuty inp tT vT aT g1.pwmDuty } }

/-- The state `recordAll` leaves when the cursor is a valid index. -/
def recordSamples (g : Globals) (samples : List Sample) : Globals :=
  samples.foldl (fun g1 s => recordSample g1 s.tempNow s.voltNow s.ampNow) g

/-! ## Concrete states and inputs used in examples -/

/-- A settled state: every slot holds 40 degrees, 14 volts and `amps` amperes,
the cursor is 0 and the duty is `duty`. -/
def settledGlobals (amps : ℚ) (duty : Int) : Globals :=
  { tempHistory := fun _ => 40, voltHistory := fun _ => 14, ampHistory := fun _ => amps,
    trendIndex := 0, pwmDuty := duty }

/-- Readings 40 degrees, 14 volts, `amps` amperes against the limits
100 degrees, 14 volts, 50 amperes. -/
def settledInputs (amps : ℚ) : Inputs :=
  { tempC := 40, volts := 14, amps := amps, tempLimit := 100, voltTarget := 14, ampLimit := 50 }

/-- Scenario 1: 105 degrees against a limit of 100, with 60 amperes against a
limit of 50 and 13 volts against a target of 14. -/
def overtempInputs : Inputs :=
  { tempC := 105, volts := 13, amps := 60, tempLimit := 100, voltTarget := 14, ampLimit := 50 }

/-- A tick in which overcurrent and undervoltage hold together: 50 degrees,
13.5 volts, 60 amperes against the limits 100 degrees, 14 volts, 50 amperes. -/
def loadedInputs : Inputs :=
  { tempC := 50, volts := 13.5, amps := 60, tempLimit := 100, voltTarget := 14, ampLimit := 50 }

/-- Readings 105 degrees, 14 volts, 20 amperes against the limits
100 degrees, 14 volts, 50 amperes. -/
def hotInputs : Inputs :=
  { tempC := 105, volts := 14, amps := 20, tempLimit := 100, voltTarget := 14, ampLimit := 50 }

/-- Implausible readings and limits of large magnitude and mixed sign. -/
def extremeInputs : Inputs :=
  { tempC := -273, volts := -1000000, amps := 1000000000, tempLimit := 1000000,
    voltTarget := 1000000, ampLimit := -5 }

/-- The buffer contents 10, 20, 30, 40, 50 in slots 0 to 4. -/
def rampHistory : History := fun i =>
  if i = 0 then 10 else if i = 1 then 20 else if i = 2 then 30 else if i = 3 then 40 else 50

/-- A state whose three buffers hold `rampHistory`, with the cursor at 3. -/
def rampGlobals : Globals :=
  { tempHistory := rampHistory, voltHistory := rampHistory, ampHistory := rampHistory,
    trendIndex := 3, pwmDuty := 0 }

/-- Five samples rising by 1 per call from 1, in all three metrics. -/
def rampSamples : List Sample :=
  [⟨1, 1, 1⟩, ⟨2, 2, 2⟩, ⟨3, 3, 3⟩, ⟨4, 4, 4⟩, ⟨5, 5, 5⟩]

/-- Five samples with a constant 14 volts and varying temperature and current. -/
def constVoltSamples : List Sample :=
  [⟨1, 14, 9⟩, ⟨2, 14, 8⟩, ⟨3, 14, 7⟩, ⟨4, 14, 6⟩, ⟨5, 14, 5⟩]

/-- Scenario 2: 13.5 volts against a target of 14, with 40 degrees and
20 amperes against the limits 100 degrees and 50 amperes. -/
def undervoltInputs : Inputs :=
  { tempC := 40, volts := 13.5, amps := 20, tempLimit := 100, voltTarget := 14, ampLimit := 50 }

/-- The mirror case of scenario 2: 14.5 volts against a target of 14. -/
def overvoltInputs : Inputs :=
  { tempC := 40, volts := 14.5, amps := 20, tempLimit := 100, voltTarget := 14, ampLimit := 50 }

/-- A state whose buffers hold 40 degrees, 16 volts and 20 amperes in every
slot, with the cursor at 0 and the duty at 100. -/
def surgeGlobals : Globals :=
  { tempHistory := fun _ => 40, voltHistory := fun _ => 16, ampHistory := fun _ => 20,
    trendIndex := 0, pwmDuty := 100 }

/-- A tick on which rules 2 to 6 all lower the duty: 70 amperes against a limit
of 50, 14.5 volts against a target of 14, and, against `surgeGlobals`, a
temperature 10 higher, a current 50 higher and a voltage 1.5 lower than three
ticks before. -/
def surgeInputs : Inputs :=
  { tempC := 50, volts := 14.5, amps := 70, tempLimit := 100, voltTarget := 14, ampLimit := 50 }

/-- A controller in mid-run: gains 2, 1/2, 1/10, tick 1/10, target 14, previous
error 1/2, integral 3. -/
def runningPid : RegulateFieldPWM :=
  { kp_ := 2, ki_ := 1 / 2, kd_ := 1 / 10, dt_ := 1 / 10,
    targetVoltage_ := 14, prevError_ := 1 / 2, integral_ := 3 }

/-- A controller with very large gains and memory. -/
def extremePid : RegulateFieldPWM :=
  { kp_ := 1000000, ki_ := -1000000000, kd_ := 5000000, dt_ := 1 / 1000,
    targetVoltage_ := -40000, prevError_ := 123456789, integral_ := 1000000000000 }

/-- A controller whose tick interval is 0: gain 1, target 14, no memory. -/
def zeroDtPid : RegulateFieldPWM :=
  { kp_ := 1, ki_ := 0, kd_ := 0, dt_ := 0,
    targetVoltage_ := 14, prevError_ := 0, integral_ := 0 }

/-- A controller with the gains and tick of `runningPid` but another target and
other memory: target 72/5, previous error -3, integral -50. -/
def otherRunningPid : RegulateFieldPWM :=
  { kp_ := 2, ki_ := 1 / 2, kd_ := 1 / 10, dt_ := 1 / 10,
    targetVoltage_ := 72 / 5, prevError_ := -3, integral_ := -50 }

/-! ## Basic facts about the embedding -/

@[simp] theorem slot_neg_one : slot (-1) = 4 := by decide
@[simp] theorem slot_zero : slot 0 = 0 := by decide
@[simp] theorem slot_one : slot 1 = 1 := by decide
@[simp] theorem slot_two : slot 2 = 2 := by decide
@[simp] theorem slot_three : slot 3 = 3 := by decide
@[simp] theorem slot_four : slot 4 = 4 := by decide
@[simp] theorem slot_five : slot 5 = 0 := by decide

theorem slot_of_bounds (i : Int) (h : 0 ≤ i ∧ i < 5) :
    (⟨i.toNat, by omega⟩ : Fin 5) = slot i := by
  apply Fin.ext
  simp only [slot]
  omega

theorem readSlot_of_bounds (history : History) (i : Int) (h0 : 0 ≤ i) (h5 : i < 5) :
    readSlot history i = some (history (slot i)) := by
  unfold readSlot
  rw [dif_pos ⟨h0, h5⟩, slot_of_bounds i ⟨h0, h5⟩]

theorem writeSlot_of_bounds (history : History) (i : Int) (v : ℚ) (h0 : 0 ≤ i) (h5 : i < 5) :
    writeSlot history i v = some (Function.update history (slot i) v) := by
  unfold writeSlot
  rw [dif_pos ⟨h0, h5⟩, slot_of_bounds i ⟨h0, h5⟩]

theorem tmod_size (i : Int) (h : 0 ≤ i) : i.tmod TREND_SIZE = i % 5 := by
  unfold TREND_SIZE
  exact Int.tmod_eq_emod h (by decide)

theorem slot_emod (i : Int) : slot (i % 5) = slot i := by
  apply Fin.ext
  simp only [slot]
  omega

theorem trendSeconds_eq : trendSeconds = 4 := by
  norm_num [trendSeconds, TREND_SIZE]

/-- Closed form of `updateTrends` on a state whose cursor is in range. -/
theorem updateTrends_of_wf (g : Globals) (t v a : ℚ) (hg : WellFormed g) :
    updateTrends g t v a = some (recordSample g t v a) := by
  obtain ⟨h0, h5⟩ := hg
  have h5 : g.trendIndex < 5 := h5
  simp only [updateTrends, writeSlot_of_bounds _ _ _ h0 h5, Option.bind_eq_bind,
    Option.some_bind, Option.pure_def, tmod_size _ (by omega : 0 ≤ g.trendIndex + 1),
    recordSample]

/-- Closed form of `computeTrend` for a cursor in range. -/
theorem computeTrend_of_bounds (c : Int) (history : History) (h0 : 0 ≤ c) (h5 : c < 5) :
    computeTrend c history = some (slope c history) := by
  have e1 : (c - 1 + TREND_SIZE).tmod TREND_SIZE = (c - 1 + 5) % 5 := by
    rw [tmod_size _ (by unfold TREND_SIZE; omega)]; rfl
  have e2 : (c + 1).tmod TREND_SIZE = (c + 1) % 5 := tmod_size _ (by omega)
  have s1 : slot ((c - 1 + 5) % 5) = slot (c - 1) := by
    apply Fin.ext; simp only [slot]; omega
  simp only [computeTrend, e1, e2,
    readSlot_of_bounds history ((c - 1 + 5) % 5) (by omega) (by omega),
    readSlot_of_bounds history ((c + 1) % 5) (by omega) (by omega),
    Option.bind_eq_bind, Option.some_bind, Option.pure_def, slot_emod, s1, trendSeconds_eq,
    slope]

theorem updateTrends_wellFormed (g g1 : Globals) (t v a : ℚ) (hg : WellFormed g)
    (h : updateTrends g t v a = some g1) : WellFormed g1 ∧ g1.pwmDuty = g.pwmDuty := by
  rw [updateTrends_of_wf g t v a hg] at h
  injection h with h
  subst h
  obtain ⟨h0, h5⟩ := hg
  have h5 : g.trendIndex < 5 := h5
  refine ⟨⟨?_, ?_⟩, rfl⟩
  · show 0 ≤ (g.trendIndex + 1) % 5
    omega
  · show (g.trendIndex + 1) % 5 < 5
    omega

theorem updateTrends_pwmDuty (g g1 : Globals) (t v a : ℚ)
    (h : updateTrends g t v a = some g1) : g1.pwmDuty = g.pwmDuty := by
  simp only [updateTrends, Option.bind_eq_bind, Option.bind_eq_some, Option.pure_def,
    Option.some.injEq] at h
  obtain ⟨_, _, _, _, _, _, rfl⟩ := h
  rfl

/-- The three trends exist after the sample of a tick has been recorded. -/
theorem trends_defined (g : Globals) (inp : Inputs) (hg : WellFormed g) :
    ∃ g1 tT vT aT, updateTrends g inp.tempC inp.volts inp.amps = some g1
      ∧ g1.pwmDuty = g.pwmDuty
      ∧ computeTrend g1.trendIndex g1.tempHistory = some tT
      ∧ computeTrend g1.trendIndex g1.voltHistory = some vT
      ∧ computeTrend g1.trendIndex g1.ampHistory = some aT := by
  obtain ⟨g1, h1⟩ : ∃ g1, updateTrends g inp.tempC inp.volts inp.amps = some g1 :=
    ⟨_, updateTrends_of_wf g _ _ _ hg⟩
  obtain ⟨⟨h0, h5⟩, hd⟩ := updateTrends_wellFormed g g1 _ _ _ hg h1
  exact ⟨g1, _, _, _, h1, hd, computeTrend_of_bounds _ _ h0 h5,
    computeTrend_of_bounds _ _ h0 h5, computeTrend_of_bounds _ _ h0 h5⟩

/-- `regulateFieldPWM` once the tracker calls have been evaluated. -/
theorem regulateFieldPWM_of_trends (g g1 : Globals) (inp : Inputs) (tT vT aT : ℚ)
    (h1 : updateTrends g inp.tempC inp.volts inp.amps = some g1)
    (ht : computeTrend g1.trendIndex g1.tempHistory = some tT)
    (hv : computeTrend g1.trendIndex g1.voltHistory = some vT)
    (ha : computeTrend g1.trendIndex g1.ampHistory = some aT) :
    regulateFieldPWM g inp =
      if inp.tempC ≥ inp.tempLimit then
        some { ret := 0, log := ["Overtemp Derate"], pinWrite := none, globals := g1 }
      else
        some { ret := specRuleDuty inp tT vT aT g1.pwmDuty
               log := specRuleEvents inp tT vT aT
               pinWrite := some (specRuleDuty inp tT vT aT g1.pwmDuty)
               globals := { g1 with pwmDuty := specRuleDuty inp tT vT aT g1.pwmDuty } } := by
  simp only [regulateFieldPWM, h1, ht, hv, ha, Option.bind_eq_bind, Option.some_bind,
    Option.pure_def, specRuleDuty, specRuleEvents]
  by_cases c1 : inp.tempC ≥ inp.tempLimit
  · simp only [c1, if_true]
  · simp only [c1, if_false]
    by_cases c2 : inp.amps > inp.ampLimit <;> by_cases c3 : inp.volts < inp.voltTarget - 0.4 <;>
      by_cases c4 : inp.volts > inp.voltTarget + 0.2 <;> by_cases c5 : tT > 1.0 <;>
      by_cases c6 : aT > 10.0 <;> by_cases c7 : vT < -0.3 <;>
      simp only [c2, c3, c4, c5, c6, c7, if_true, if_false, decide_True, decide_False] <;>
      rfl

theorem recordSample_wellFormed (g : Globals) (t v a : ℚ) (hg : WellFormed g) :
    WellFormed (recordSample g t v a) :=
  (updateTrends_wellFormed g _ t v a hg (updateTrends_of_wf g t v a hg)).1

/-- On a state with a valid cursor `regulateFieldPWM` returns `tickOutcome`. -/
theorem regulateFieldPWM_closed (g : Globals) (inp : Inputs) (hg : WellFormed g) :
    regulateFieldPWM g inp = some (tickOutcome g inp) := by
  obtain ⟨h0, h5⟩ := recordSample_wellFormed g inp.tempC inp.volts inp.amps hg
  rw [regulateFieldPWM_of_trends g _ inp _ _ _ (updateTrends_of_wf g _ _ _ hg)
    (computeTrend_of_bounds _ _ h0 h5) (computeTrend_of_bounds _ _ h0 h5)
    (computeTrend_of_bounds _ _ h0 h5)]
  simp only [tickOutcome]
  split_ifs <;> rfl

theorem tickOutcome_wellFormed (g : Globals) (inp : Inputs) (hg : WellFormed g) :
    WellFormed (tickOutcome g inp).globals := by
  have h := recordSample_wellFormed g inp.tempC inp.volts inp.amps hg
  simp only [tickOutcome]
  split_ifs <;> exact h

theorem specRuleDuty_range (inp : Inputs) (tT vT aT : ℚ) (d : Int)
    (h0 : 0 ≤ d) (h1 : d ≤ 255) :
    0 ≤ specRuleDuty inp tT vT aT d ∧ specRuleDuty inp tT vT aT d ≤ 255 := by
  simp only [specRuleDuty]
  constructor <;> split_ifs <;> omega

/-- One tick from a state with duty in `[0,255]`: it returns, and the returned
duty, the stored duty and the cursor are in range afterwards. -/
theorem tick_range (g : Globals) (inp : Inputs) (hg : WellFormed g)
    (h0 : 0 ≤ g.pwmDuty) (h1 : g.pwmDuty ≤ 255) :
    ∃ o, regulateFieldPWM g inp = some o ∧ WellFormed o.globals
      ∧ (0 ≤ o.ret ∧ o.ret ≤ 255) ∧ (0 ≤ o.globals.pwmDuty ∧ o.globals.pwmDuty ≤ 255) := by
  obtain ⟨g1, tT, vT, aT, e1, hd, ht, hv, ha⟩ := trends_defined g inp hg
  obtain ⟨hw, -⟩ := updateTrends_wellFormed g g1 _ _ _ hg e1
  rw [regulateFieldPWM_of_trends g g1 inp tT vT aT e1 ht hv ha]
  have hr := specRuleDuty_range inp tT vT aT g1.pwmDuty (by omega) (by omega)
  split_ifs
  · exact ⟨_, rfl, hw, ⟨le_refl (0 : Int), (by decide : (0 : Int) ≤ 255)⟩,
      ⟨by show 0 ≤ g1.pwmDuty; omega, by show g1.pwmDuty ≤ 255; omega⟩⟩
  · exact ⟨_, rfl, hw, hr, hr⟩

/-- A run of ticks from a state with duty in `[0,255]` returns at every tick and
keeps every returned and stored duty in `[0,255]`. -/
theorem runTicks_range (inputs : List Inputs) :
    ∀ g : Globals, WellFormed g → 0 ≤ g.pwmDuty → g.pwmDuty ≤ 255 →
      ∃ os, runTicks g inputs = some os ∧ os.length = inputs.length
        ∧ ∀ o ∈ os, (0 ≤ o.ret ∧ o.ret ≤ 255)
            ∧ (0 ≤ o.globals.pwmDuty ∧ o.globals.pwmDuty ≤ 255) := by
  induction inputs with
  | nil =>
    intro g _ _ _
    exact ⟨[], rfl, rfl, by intro o ho; cases ho⟩
  | cons inp rest ih =>
    intro g hg h0 h1
    obtain ⟨o, e, hw, hr, hp⟩ := tick_range g inp hg h0 h1
    obtain ⟨os, es, hl, hall⟩ := ih o.globals hw hp.1 hp.2
    refine ⟨o :: os, ?_, ?_, ?_⟩
    · simp only [runTicks, e, es, Option.some_bind, Option.map_some']
    · simp only [List.length_cons, hl]
    · intro o2 ho2
      rcases List.mem_cons.mp ho2 with rfl | hmem
      · exact ⟨hr, hp⟩
      · exact hall o2 hmem

/-! ## Facts about the trend tracker -/

theorem Metric.history_recordSample (m : Metric) (g : Globals) (s : Sample) :
    m.history (recordSample g s.tempNow s.voltNow s.ampNow)
      = Function.update (m.history g) (slot g.trendIndex) (m.value s) := by
  cases m <;> rfl

/-- `initTrendBuffers` returns, with all slots zero and the cursor at 0. -/
theorem initTrendBuffers_eq (g : Globals) :
    initTrendBuffers g = some (startGlobals g.pwmDuty) := by
  have w : ∀ (h : History) (i : Int) (h0 : 0 ≤ i) (h5 : i < 5),
      writeSlot h i 0 = some (Function.update h (slot i) 0) :=
    fun h i h0 h5 => writeSlot_of_bounds h i 0 h0 h5
  simp only [initTrendBuffers, initTrendBuffersLoop, initTrendBuffersBody, TREND_SIZE,
    Option.bind_eq_bind, Option.some_bind, Option.pure_def]
  norm_num [w, startGlobals]
  refine ⟨?_, ?_, ?_⟩ <;> funext i <;> fin_cases i <;> simp [Function.update_apply]

theorem recordAll_append (l : List Sample) (s : Sample) :
    ∀ g : Globals, recordAll g (l ++ [s])
      = (recordAll g l).bind (fun g1 => updateTrends g1 s.tempNow s.voltNow s.ampNow) := by
  induction l with
  | nil =>
    intro g
    simp only [List.nil_append, recordAll, Option.some_bind]
    cases updateTrends g s.tempNow s.voltNow s.ampNow <;> rfl
  | cons a rest ih =>
    intro g
    simp only [List.cons_append, recordAll]
    cases updateTrends g a.tempNow a.voltNow a.ampNow with
    | none => rfl
    | some g1 => exact ih g1

theorem recordAll_of_wf (samples : List Sample) :
    ∀ g : Globals, WellFormed g →
      recordAll g samples = some (recordSamples g samples)
        ∧ WellFormed (recordSamples g samples) := by
  induction samples with
  | nil => exact fun g hg => ⟨rfl, hg⟩
  | cons a rest ih =>
    intro g hg
    have h := ih _ (recordSample_wellFormed g a.tempNow a.voltNow a.ampNow hg)
    refine ⟨?_, h.2⟩
    simp only [recordAll, updateTrends_of_wf g _ _ _ hg, Option.some_bind, h.1]
    rfl

theorem recordSample_trendIndex (g : Globals) (t v a : ℚ) :
    (recordSample g t v a).trendIndex = (g.trendIndex + 1) % 5 := rfl

/-- Five consecutive records with the same value of a metric fill every slot of
that metric's buffer with the value, wherever the cursor started. -/
theorem five_records_fill (m : Metric) (v : ℚ) (g : Globals) (hg : WellFormed g)
    (s1 s2 s3 s4 s5 : Sample) (h1 : m.value s1 = v) (h2 : m.value s2 = v)
    (h3 : m.value s3 = v) (h4 : m.value s4 = v) (h5 : m.value s5 = v) (i : Fin 5) :
    m.history (recordSamples g [s1, s2, s3, s4, s5]) i = v := by
  simp only [recordSamples, List.foldl, Metric.history_recordSample, h1, h2, h3, h4, h5,
    recordSample_trendIndex]
  obtain ⟨c0, c5⟩ := hg
  simp only [TREND_SIZE] at c5
  have hc : g.trendIndex = 0 ∨ g.trendIndex = 1 ∨ g.trendIndex = 2 ∨ g.trendIndex = 3
      ∨ g.trendIndex = 4 := by omega
  rcases hc with hc | hc | hc | hc | hc <;> rw [hc] <;> fin_cases i <;>
    simp [Function.update_apply]

theorem slot_ne_of_near (n k : Nat) (h1 : n < k) (h2 : k ≤ n + 4) :
    slot (n : Int) ≠ slot (k : Int) := by
  intro h
  have h3 := congrArg Fin.val h
  simp only [slot] at h3
  omega

theorem slot_natCast (n : Nat) : slot (n : Int) = ⟨n % 5, Nat.mod_lt _ (by decide)⟩ := by
  apply Fin.ext
  simp only [slot]
  omega

/-- Ring-buffer invariant of `recordAll` started from zeroed buffers: the
cursor is the number of samples modulo 5, sample number `n` (from 0) sits in
slot `n mod 5` as long as it is among the last five, and slots never written
hold 0. -/
theorem recordAll_from_zero (d : Int) (samples : List Sample) :
    ∃ g, recordAll (startGlobals d) samples = some g
      ∧ g.trendIndex = ((samples.length % 5 : Nat) : Int)
      ∧ g.pwmDuty = d
      ∧ (∀ n s, samples[n]? = some s → samples.length ≤ n + 5 →
          ∀ m : Metric, m.history g (slot (n : Int)) = m.value s)
      ∧ (∀ i : Fin 5, samples.length ≤ i.val → ∀ m : Metric, m.history g i = 0) := by
  induction samples using List.reverseRecOn with
  | nil =>
    refine ⟨startGlobals d, rfl, rfl, rfl, ?_, ?_⟩
    · intro n s h
      simp at h
    · intro i _ m
      cases m <;> rfl
  | append_singleton l a ih =>
    obtain ⟨g, e, hc, hd, hs, hz⟩ := ih
    have hg : WellFormed g := by
      simp only [WellFormed, TREND_SIZE, hc]
      omega
    have hslot : slot g.trendIndex = slot (l.length : Int) := by
      rw [hc, ← slot_emod (l.length : Int)]
      congr 1
    refine ⟨recordSample g a.tempNow a.voltNow a.ampNow, ?_, ?_, hd, ?_, ?_⟩
    · rw [recordAll_append, e, Option.some_bind, updateTrends_of_wf g _ _ _ hg]
    · show (g.trendIndex + 1) % 5 = _
      rw [hc, List.length_append, List.length_singleton]
      omega
    · intro n s hn hk m
      rw [List.length_append, List.length_singleton] at hk
      rw [Metric.history_recordSample, hslot]
      rcases Nat.lt_trichotomy n l.length with hlt | heq | hgt
      · rw [List.getElem?_append_left hlt] at hn
        rw [Function.update_noteq (slot_ne_of_near n l.length hlt (by omega))]
        exact hs n s hn (by omega) m
      · subst heq
        rw [List.getElem?_append_right (le_refl _)] at hn
        simp only [Nat.sub_self, List.getElem?_cons_zero, Option.some.injEq] at hn
        subst hn
        rw [Function.update_same]
      · rw [List.getElem?_append_right (le_of_lt hgt)] at hn
        have : n - l.length = (n - l.length - 1) + 1 := by omega
        rw [this] at hn
        simp at hn
    · intro i hi m
      rw [List.length_append, List.length_singleton] at hi
      rw [Metric.history_recordSample, hslot, Function.update_noteq]
      · exact hz i (by omega) m
      · intro h
        have h3 := congrArg Fin.val h
        simp only [slot] at h3
        omega

/-! ## The regulation policy -/

/-- C1: when `tempC >= tempLimit` (equality included) the call returns 0 and the
only message logged during the call is "Overtemp Derate", whatever the other
readings, the limits, the stored duty and the history are. -/
theorem overtemp_returns_zero (g : Globals) (inp : Inputs) (hg : WellFormed g)
    (hot : inp.tempC ≥ inp.tempLimit) :
    ∃ o, regulateFieldPWM g inp = some o ∧ o.ret = 0 ∧ o.log = ["Overtemp Derate"] := by
  obtain ⟨g1, tT, vT, aT, e1, -, ht, hv, ha⟩ := trends_defined g inp hg
  rw [regulateFieldPWM_of_trends g g1 inp tT vT aT e1 ht hv ha, if_pos hot]
  exact ⟨_, rfl, rfl, rfl⟩

/-- Scenario 1 (limit 100, temperature 105) as an instance of C1; overcurrent
and undervoltage hold at the same time and leave no trace. -/
theorem overtemp_returns_zero_witness :
    WellFormed (startGlobals 100) ∧ overtempInputs.tempC ≥ overtempInputs.tempLimit ∧
    ∃ o, regulateFieldPWM (startGlobals 100) overtempInputs = some o ∧ o.ret = 0
      ∧ o.log = ["Overtemp Derate"] :=
  ⟨by decide, by norm_num [overtempInputs],
    overtemp_returns_zero (startGlobals 100) overtempInputs (by decide)
      (by norm_num [overtempInputs])⟩

/-- C2: below the temperature limit the call returns the duty obtained from the
stored duty by rules 2 to 6 in order, with the trends taken from the history
after this tick's sample was recorded; it logs exactly the labels of the rules
2, 4, 5, 6 that fired, in that order; and the stored duty afterwards equals the
returned value. -/
theorem rules_applied_in_order (g : Globals) (inp : Inputs) (hg : WellFormed g)
    (cool : inp.tempC < inp.tempLimit) :
    ∃ g1 tT vT aT o, updateTrends g inp.tempC inp.volts inp.amps = some g1
      ∧ computeTrend g1.trendIndex g1.tempHistory = some tT
      ∧ computeTrend g1.trendIndex g1.voltHistory = some vT
      ∧ computeTrend g1.trendIndex g1.ampHistory = some aT
      ∧ regulateFieldPWM g inp = some o
      ∧ o.ret = specRuleDuty inp tT vT aT g.pwmDuty
      ∧ o.log = specRuleEvents inp tT vT aT
      ∧ o.globals.pwmDuty = o.ret := by
  obtain ⟨g1, tT, vT, aT, e1, hd, ht, hv, ha⟩ := trends_defined g inp hg
  have e := regulateFieldPWM_of_trends g g1 inp tT vT aT e1 ht hv ha
  rw [if_neg (not_le.mpr cool)] at e
  exact ⟨g1, tT, vT, aT, _, e1, ht, hv, ha, e, by rw [hd], rfl, rfl⟩

/-- An instance of C2: the first tick after program start with duty 100 and the
readings `loadedInputs`.  Rules 2, 3, 4 and 5 fire (the zero-filled history
makes the temperature and current trends large): 100, 90, 95, 85, 80. -/
theorem rules_applied_in_order_witness :
    WellFormed (startGlobals 100) ∧ loadedInputs.tempC < loadedInputs.tempLimit ∧
    ∃ o, regulateFieldPWM (startGlobals 100) loadedInputs = some o ∧ o.ret = 80
      ∧ o.log = ["Overcurrent", "Temp rising fast", "Amp rising fast"]
      ∧ o.globals.pwmDuty = 80 := by
  refine ⟨by decide, by norm_num [loadedInputs], ?_⟩
  obtain ⟨g1, tT, vT, aT, o, e1, ht, hv, ha, e, hr, hl, hp⟩ :=
    rules_applied_in_order (startGlobals 100) loadedInputs (by decide)
      (by norm_num [loadedInputs])
  rw [updateTrends_of_wf _ _ _ _ (by decide)] at e1
  injection e1 with e1
  subst e1
  rw [computeTrend_of_bounds _ _ (by decide) (by decide)] at ht hv ha
  injection ht with ht
  injection hv with hv
  injection ha with ha
  subst ht hv ha
  refine ⟨o, e, ?_, ?_, ?_⟩
  · rw [hr]
    simp [specRuleDuty, loadedInputs, startGlobals, slot, slope, recordSample,
      Function.update]
    norm_num
  · rw [hl]
    simp [specRuleEvents, loadedInputs, startGlobals, slot, slope, recordSample,
      Function.update]
    norm_num
  · rw [hp, hr]
    simp [specRuleDuty, loadedInputs, startGlobals, slot, slope, recordSample,
      Function.update]
    norm_num

/-- C3: started from a stored duty in `[0,255]`, a tick returns a duty in
`[0,255]` and leaves a stored duty in `[0,255]` for every reading and limit, and
the same holds at every tick of every sequence of ticks. -/
theorem duty_stays_in_range (g : Globals) (hg : WellFormed g)
    (h0 : 0 ≤ g.pwmDuty) (h1 : g.pwmDuty ≤ 255) :
    (∀ inp, ∃ o, regulateFieldPWM g inp = some o
        ∧ (0 ≤ o.ret ∧ o.ret ≤ 255)
        ∧ (0 ≤ o.globals.pwmDuty ∧ o.globals.pwmDuty ≤ 255))
    ∧ (∀ inputs, ∃ os, runTicks g inputs = some os ∧ os.length = inputs.length
        ∧ ∀ o ∈ os, (0 ≤ o.ret ∧ o.ret ≤ 255)
            ∧ (0 ≤ o.globals.pwmDuty ∧ o.globals.pwmDuty ≤ 255)) := by
  constructor
  · intro inp
    obtain ⟨o, e, -, hr, hp⟩ := tick_range g inp hg h0 h1
    exact ⟨o, e, hr, hp⟩
  · intro inputs
    exact runTicks_range inputs g hg h0 h1

/-- An instance of C3: from program start with duty 255, one tick on
`extremeInputs`, and a run of four ticks mixing extreme, overtemperature and
loaded readings. -/
theorem duty_stays_in_range_witness :
    (WellFormed (startGlobals 255) ∧ (0 : Int) ≤ (startGlobals 255).pwmDuty
      ∧ (startGlobals 255).pwmDuty ≤ 255)
    ∧ (∃ o, regulateFieldPWM (startGlobals 255) extremeInputs = some o
        ∧ (0 ≤ o.ret ∧ o.ret ≤ 255)
        ∧ (0 ≤ o.globals.pwmDuty ∧ o.globals.pwmDuty ≤ 255))
    ∧ (∃ os, runTicks (startGlobals 255)
          [extremeInputs, overtempInputs, loadedInputs, extremeInputs] = some os
        ∧ os.length = [extremeInputs, overtempInputs, loadedInputs, extremeInputs].length
        ∧ ∀ o ∈ os, (0 ≤ o.ret ∧ o.ret ≤ 255)
            ∧ (0 ≤ o.globals.pwmDuty ∧ o.globals.pwmDuty ≤ 255)) :=
  ⟨⟨by decide, by decide, by decide⟩,
    (duty_stays_in_range (startGlobals 255) (by decide) (by decide) (by decide)).1
      extremeInputs,
    (duty_stays_in_range (startGlobals 255) (by decide) (by decide) (by decide)).2
      [extremeInputs, overtempInputs, loadedInputs, extremeInputs]⟩

/-- C4, evaluated on the code: from a settled state with stored duty 100, a tick
at 105 degrees against a limit of 100 returns 0 but writes nothing to the pin
and leaves the stored duty at 100; the following tick, back at 40 degrees with
no rule firing, returns 100. -/
theorem overtemp_leaves_stored_duty :
    ∃ o1 o2, runTicks (settledGlobals 20 100) [hotInputs, settledInputs 20] = some [o1, o2]
      ∧ o1.ret = 0 ∧ o1.log = ["Overtemp Derate"] ∧ o1.pinWrite = none
      ∧ o1.globals.pwmDuty = 100
      ∧ o2.ret = 100 ∧ o2.log = [] ∧ o2.globals.pwmDuty = 100 := by
  have w1 : WellFormed (settledGlobals 20 100) := by decide
  have w2 := tickOutcome_wellFormed _ hotInputs w1
  refine ⟨tickOutcome (settledGlobals 20 100) hotInputs,
    tickOutcome (tickOutcome (settledGlobals 20 100) hotInputs).globals (settledInputs 20),
    ?_, ?_⟩
  · simp only [runTicks, regulateFieldPWM_closed _ _ w1, regulateFieldPWM_closed _ _ w2,
      Option.some_bind, Option.map_some']
  · simp [tickOutcome, specRuleDuty, specRuleEvents, slope, recordSample,
      settledGlobals, hotInputs, settledInputs, Function.update_apply]
    norm_num [Function.update_apply]
    simp

/-- C9: at `volts = voltTarget`, `amps <= ampLimit`, `tempC < tempLimit` and
with the three trends, computed after this tick's sample was recorded, inside
their neutral bounds, the call returns the stored duty unchanged, leaves it
stored, and logs nothing. -/
theorem steady_state_keeps_duty (g g1 : Globals) (inp : Inputs) (tT vT aT : ℚ)
    (h1 : updateTrends g inp.tempC inp.volts inp.amps = some g1)
    (ht : computeTrend g1.trendIndex g1.tempHistory = some tT)
    (hv : computeTrend g1.trendIndex g1.voltHistory = some vT)
    (ha : computeTrend g1.trendIndex g1.ampHistory = some aT)
    (onTarget : inp.volts = inp.voltTarget) (ampsOk : inp.amps ≤ inp.ampLimit)
    (cool : inp.tempC < inp.tempLimit)
    (tempCalm : tT ≤ 1.0) (ampCalm : aT ≤ 10.0) (voltCalm : vT ≥ -0.3) :
    ∃ o, regulateFieldPWM g inp = some o ∧ o.ret = g.pwmDuty
      ∧ o.globals.pwmDuty = g.pwmDuty ∧ o.log = [] := by
  have hd := updateTrends_pwmDuty g g1 _ _ _ h1
  have e := regulateFieldPWM_of_trends g g1 inp tT vT aT h1 ht hv ha
  rw [if_neg (not_le.mpr cool)] at e
  have n3 : ¬ inp.volts < inp.voltTarget - 0.4 := by rw [onTarget]; norm_num
  have n4 : ¬ inp.volts > inp.voltTarget + 0.2 := by rw [onTarget]; norm_num
  have ed : specRuleDuty inp tT vT aT g1.pwmDuty = g.pwmDuty := by
    simp only [specRuleDuty, if_neg (not_lt.mpr ampsOk), if_neg n3, if_neg n4,
      if_neg (not_lt.mpr tempCalm), if_neg (not_lt.mpr ampCalm), if_neg (not_lt.mpr voltCalm),
      hd]
  have el : specRuleEvents inp tT vT aT = [] := by
    simp only [specRuleEvents, decide_eq_false (not_lt.mpr ampsOk),
      decide_eq_false (not_lt.mpr tempCalm), decide_eq_false (not_lt.mpr ampCalm),
      decide_eq_false (not_lt.mpr voltCalm)]
    rfl
  exact ⟨_, e, ed, ed, el⟩

/-- An instance of C9: a settled state with stored duty 100, 14 volts on a
14 volt target, 20 amperes under a 50 ampere limit, 40 degrees. -/
theorem steady_state_keeps_duty_witness :
    ∃ o, regulateFieldPWM (settledGlobals 20 100) (settledInputs 20) = some o ∧ o.ret = 100
      ∧ o.globals.pwmDuty = 100 ∧ o.log = [] :=
  steady_state_keeps_duty (settledGlobals 20 100) _ (settledInputs 20) _ _ _
    (updateTrends_of_wf _ _ _ _ (by decide))
    (computeTrend_of_bounds _ _ (by decide) (by decide))
    (computeTrend_of_bounds _ _ (by decide) (by decide))
    (computeTrend_of_bounds _ _ (by decide) (by decide))
    rfl (by norm_num [settledInputs]) (by norm_num [settledInputs])
    (by simp [slope, recordSample, settledGlobals, settledInputs, Function.update_apply]
        norm_num)
    (by simp [slope, recordSample, settledGlobals, settledInputs, Function.update_apply]
        norm_num)
    (by simp [slope, recordSample, settledGlobals, settledInputs, Function.update_apply]
        norm_num)

/-- C10: with `amps > ampLimit`, the voltage inside the band, the temperature
below its limit and no trend rule firing, the call returns
`max (duty - 10) 0` and logs exactly "Overcurrent". -/
theorem overcurrent_alone (g g1 : Globals) (inp : Inputs) (tT vT aT : ℚ)
    (h1 : updateTrends g inp.tempC inp.volts inp.amps = some g1)
    (ht : computeTrend g1.trendIndex g1.tempHistory = some tT)
    (hv : computeTrend g1.trendIndex g1.voltHistory = some vT)
    (ha : computeTrend g1.trendIndex g1.ampHistory = some aT)
    (cool : inp.tempC < inp.tempLimit) (over : inp.amps > inp.ampLimit)
    (bandLow : inp.voltTarget - 0.4 ≤ inp.volts) (bandHigh : inp.volts ≤ inp.voltTarget + 0.2)
    (tempCalm : tT ≤ 1.0) (ampCalm : aT ≤ 10.0) (voltCalm : vT ≥ -0.3) :
    ∃ o, regulateFieldPWM g inp = some o ∧ o.ret = max (g.pwmDuty - 10) 0
      ∧ o.log = ["Overcurrent"] := by
  have hd := updateTrends_pwmDuty g g1 _ _ _ h1
  have e := regulateFieldPWM_of_trends g g1 inp tT vT aT h1 ht hv ha
  rw [if_neg (not_le.mpr cool)] at e
  have ed : specRuleDuty inp tT vT aT g1.pwmDuty = max (g.pwmDuty - 10) 0 := by
    simp only [specRuleDuty, if_pos over, if_neg (not_lt.mpr bandLow),
      if_neg (not_lt.mpr bandHigh), if_neg (not_lt.mpr tempCalm),
      if_neg (not_lt.mpr ampCalm), if_neg (not_lt.mpr voltCalm), hd]
  have el : specRuleEvents inp tT vT aT = ["Overcurrent"] := by
    simp only [specRuleEvents, decide_eq_true over,
      decide_eq_false (not_lt.mpr tempCalm), decide_eq_false (not_lt.mpr ampCalm),
      decide_eq_false (not_lt.mpr voltCalm)]
    rfl
  exact ⟨_, e, ed, el⟩

/-- Scenario 3 as an instance of C10: limit 50 amperes, 60 amperes measured (and
held for the whole window), stored duty 100: new duty 90, event "Overcurrent". -/
theorem overcurrent_alone_witness :
    ∃ o, regulateFieldPWM (settledGlobals 60 100) (settledInputs 60) = some o ∧ o.ret = 90
      ∧ o.log = ["Overcurrent"] :=
  overcurrent_alone (settledGlobals 60 100) _ (settledInputs 60) _ _ _
    (updateTrends_of_wf _ _ _ _ (by decide))
    (computeTrend_of_bounds _ _ (by decide) (by decide))
    (computeTrend_of_bounds _ _ (by decide) (by decide))
    (computeTrend_of_bounds _ _ (by decide) (by decide))
    (by norm_num [settledInputs]) (by norm_num [settledInputs])
    (by norm_num [settledInputs]) (by norm_num [settledInputs])
    (by simp [slope, recordSample, settledGlobals, settledInputs, Function.update_apply]
        norm_num)
    (by simp [slope, recordSample, settledGlobals, settledInputs, Function.update_apply]
        norm_num)
    (by simp [slope, recordSample, settledGlobals, settledInputs, Function.update_apply]
        norm_num)

/-! ## The trend tracker -/

/-- C5, evaluated on the code: with the cursor at 0 and the buffer holding
10, 20, 30, 40, 50 (newest 50 in slot 4, next to be overwritten 10 in slot 0)
`computeTrend` returns (50 - 20) / 4 = 7.5: its second operand is the slot after
the cursor.  The formula of the specification gives (50 - 10) / 4 = 10. -/
theorem computeTrend_reads_slot_after_cursor :
    computeTrend 0 rampHistory = some (15 / 2) ∧ specTrend 0 rampHistory = 10 := by
  constructor
  · rw [computeTrend_of_bounds _ _ (by decide) (by decide)]
    simp [slope, rampHistory]
    norm_num
  · simp [specTrend, rampHistory]
    norm_num

/-- C6, evaluated on the code: after `initTrendBuffers` and five `updateTrends`
calls with the values 1, 2, 3, 4, 5 (start 1, increment 1) `computeTrend`
returns 3/4 for each of the three metrics, not the increment 1. -/
theorem ramp_trend_is_three_quarters :
    ∃ gi g, initTrendBuffers (startGlobals 0) = some gi ∧ recordAll gi rampSamples = some g
      ∧ ∀ m : Metric, computeTrend g.trendIndex (m.history g) = some (3 / 4) := by
  have w := recordAll_of_wf rampSamples (startGlobals 0) (by decide)
  refine ⟨startGlobals 0, recordSamples (startGlobals 0) rampSamples,
    initTrendBuffers_eq _, w.1, ?_⟩
  intro m
  rw [computeTrend_of_bounds _ _ w.2.1 w.2.2]
  cases m <;>
    simp [slope, recordSamples, rampSamples, recordSample, startGlobals, Metric.history,
      Function.update_apply] <;>
    norm_num

/-- C7: from any tracker state with the cursor in 0..4, after exactly five
`updateTrends` calls that record the same value `v` for a metric (the other two
metrics free), `computeTrend` of that metric's buffer returns 0. -/
theorem constant_window_zero_trend (m : Metric) (v : ℚ) (g : Globals) (hg : WellFormed g)
    (samples : List Sample) (hlen : samples.length = 5)
    (hconst : ∀ s ∈ samples, m.value s = v) :
    ∃ g1, recordAll g samples = some g1
      ∧ computeTrend g1.trendIndex (m.history g1) = some 0 := by
  obtain ⟨e, w⟩ := recordAll_of_wf samples g hg
  refine ⟨_, e, ?_⟩
  rw [computeTrend_of_bounds _ _ w.1 w.2]
  rcases samples with _ | ⟨s1, _ | ⟨s2, _ | ⟨s3, _ | ⟨s4, _ | ⟨s5, _ | ⟨s6, rest⟩⟩⟩⟩⟩⟩ <;>
    simp at hlen
  have key := five_records_fill m v g hg s1 s2 s3 s4 s5
    (hconst s1 (by simp)) (hconst s2 (by simp)) (hconst s3 (by simp))
    (hconst s4 (by simp)) (hconst s5 (by simp))
  simp only [slope, key, sub_self, zero_div]

/-- An instance of C7: the voltage metric, 14 volts recorded five times on top of
a buffer holding 10..50 with the cursor at 3. -/
theorem constant_window_zero_trend_witness :
    WellFormed rampGlobals ∧ constVoltSamples.length = 5
    ∧ (∀ s ∈ constVoltSamples, Metric.voltage.value s = 14)
    ∧ ∃ g1, recordAll rampGlobals constVoltSamples = some g1
      ∧ computeTrend g1.trendIndex (Metric.voltage.history g1) = some 0 :=
  ⟨by decide, rfl, by simp [constVoltSamples, Metric.value],
    constant_window_zero_trend Metric.voltage 14 rampGlobals (by decide) constVoltSamples rfl
      (by simp [constVoltSamples, Metric.value])⟩

/-- C8: after `initTrendBuffers` (or from the zero-initialised state at program
start) followed by `k` `updateTrends` calls, every call has returned (all its
array writes were in bounds), the cursor is `k mod 5` and so a valid index,
`computeTrend` returns for every buffer (its reads are in bounds), the last
`min k 5` samples sit in slots `(k-1-j) mod 5` of the three buffers in lockstep,
and slots not yet written hold 0. -/
theorem ring_buffer_representation (g0 : Globals) (d : Int) (samples : List Sample) :
    (∃ gi g, initTrendBuffers g0 = some gi ∧ recordAll gi samples = some g
        ∧ RingRepresents g samples ∧ WellFormed g
        ∧ ∀ history : History, ∃ r, computeTrend g.trendIndex history = some r)
    ∧ (∃ g, recordAll (startGlobals d) samples = some g
        ∧ RingRepresents g samples ∧ WellFormed g
        ∧ ∀ history : History, ∃ r, computeTrend g.trendIndex history = some r) := by
  have main : ∀ d : Int, ∃ g, recordAll (startGlobals d) samples = some g
      ∧ RingRepresents g samples ∧ WellFormed g
      ∧ ∀ history : History, ∃ r, computeTrend g.trendIndex history = some r := by
    intro d
    obtain ⟨g, e, hc, -, hs, hz⟩ := recordAll_from_zero d samples
    have hw : WellFormed g := by
      simp only [WellFormed, TREND_SIZE, hc]
      omega
    refine ⟨g, e, ⟨hc, ?_, hz⟩, hw, fun history => ⟨_, computeTrend_of_bounds _ _ hw.1 hw.2⟩⟩
    intro j hj
    have hlt : samples.length - 1 - j < samples.length := by omega
    refine ⟨samples[samples.length - 1 - j], List.getElem?_eq_getElem hlt, ?_⟩
    intro m
    rw [← slot_natCast]
    exact hs _ _ (List.getElem?_eq_getElem hlt) (by omega) m
  obtain ⟨g, hg⟩ := main g0.pwmDuty
  exact ⟨⟨_, g, initTrendBuffers_eq g0, hg⟩, main d⟩

/-! ## The regulation policy, continued -/

/-- C11: with the temperature below its limit, `amps <= ampLimit` and no trend
rule firing, a tick with `volts < voltTarget - 0.4` returns
`min (duty + 5) 255` and logs nothing, and a tick with
`volts > voltTarget + 0.2` returns `max (duty - 5) 0` and logs nothing. -/
theorem voltage_band_alone (g g1 : Globals) (inp : Inputs) (tT vT aT : ℚ)
    (h1 : updateTrends g inp.tempC inp.volts inp.amps = some g1)
    (ht : computeTrend g1.trendIndex g1.tempHistory = some tT)
    (hv : computeTrend g1.trendIndex g1.voltHistory = some vT)
    (ha : computeTrend g1.trendIndex g1.ampHistory = some aT)
    (cool : inp.tempC < inp.tempLimit) (ampsOk : inp.amps ≤ inp.ampLimit)
    (tempCalm : tT ≤ 1.0) (ampCalm : aT ≤ 10.0) (voltCalm : vT ≥ -0.3) :
    (inp.volts < inp.voltTarget - 0.4 →
      ∃ o, regulateFieldPWM g inp = some o ∧ o.ret = min (g.pwmDuty + 5) 255 ∧ o.log = [])
    ∧ (inp.volts > inp.voltTarget + 0.2 →
      ∃ o, regulateFieldPWM g inp = some o ∧ o.ret = max (g.pwmDuty - 5) 0 ∧ o.log = []) := by
  have hd := updateTrends_pwmDuty g g1 _ _ _ h1
  have e := regulateFieldPWM_of_trends g g1 inp tT vT aT h1 ht hv ha
  rw [if_neg (not_le.mpr cool)] at e
  have el : specRuleEvents inp tT vT aT = [] := by
    simp only [specRuleEvents, decide_eq_false (not_lt.mpr ampsOk),
      decide_eq_false (not_lt.mpr tempCalm), decide_eq_false (not_lt.mpr ampCalm),
      decide_eq_false (not_lt.mpr voltCalm)]
    rfl
  constructor
  · intro low
    have ed : specRuleDuty inp tT vT aT g1.pwmDuty = min (g.pwmDuty + 5) 255 := by
      simp only [specRuleDuty, if_neg (not_lt.mpr ampsOk), if_pos low,
        if_neg (not_lt.mpr tempCalm), if_neg (not_lt.mpr ampCalm),
        if_neg (not_lt.mpr voltCalm), hd]
    exact ⟨_, e, ed, el⟩
  · intro high
    have notLow : ¬ inp.volts < inp.voltTarget - 0.4 := by
      intro low
      have : inp.voltTarget + 0.2 < inp.voltTarget - 0.4 := lt_trans high low
      norm_num at this
      linarith
    have ed : specRuleDuty inp tT vT aT g1.pwmDuty = max (g.pwmDuty - 5) 0 := by
      simp only [specRuleDuty, if_neg (not_lt.mpr ampsOk), if_neg notLow, if_pos high,
        if_neg (not_lt.mpr tempCalm), if_neg (not_lt.mpr ampCalm),
        if_neg (not_lt.mpr voltCalm), hd]
    exact ⟨_, e, ed, el⟩

/-- Scenario 2 as an instance of C11 (target 14 volts, 13.5 volts measured,
stored duty 100: new duty 105), and its mirror case (14.5 volts: new duty 95),
both on a history holding 14 volts. -/
theorem voltage_band_alone_witness :
    (∃ o, regulateFieldPWM (settledGlobals 20 100) undervoltInputs = some o ∧ o.ret = 105
      ∧ o.log = [])
    ∧ (∃ o, regulateFieldPWM (settledGlobals 20 100) overvoltInputs = some o ∧ o.ret = 95
      ∧ o.log = []) :=
  ⟨(voltage_band_alone (settledGlobals 20 100) _ undervoltInputs _ _ _
      (updateTrends_of_wf _ _ _ _ (by decide))
      (computeTrend_of_bounds _ _ (by decide) (by decide))
      (computeTrend_of_bounds _ _ (by decide) (by decide))
      (computeTrend_of_bounds _ _ (by decide) (by decide))
      (by norm_num [undervoltInputs]) (by norm_num [undervoltInputs])
      (by simp [slope, recordSample, settledGlobals, undervoltInputs, Function.update_apply]
          norm_num)
      (by simp [slope, recordSample, settledGlobals, undervoltInputs, Function.update_apply]
          norm_num)
      (by simp [slope, recordSample, settledGlobals, undervoltInputs, Function.update_apply]
          norm_num)).1 (by norm_num [undervoltInputs]),
   (voltage_band_alone (settledGlobals 20 100) _ overvoltInputs _ _ _
      (updateTrends_of_wf _ _ _ _ (by decide))
      (computeTrend_of_bounds _ _ (by decide) (by decide))
      (computeTrend_of_bounds _ _ (by decide) (by decide))
      (computeTrend_of_bounds _ _ (by decide) (by decide))
      (by norm_num [overvoltInputs]) (by norm_num [overvoltInputs])
      (by simp [slope, recordSample, settledGlobals, overvoltInputs, Function.update_apply]
          norm_num)
      (by simp [slope, recordSample, settledGlobals, overvoltInputs, Function.update_apply]
          norm_num)
      (by simp [slope, recordSample, settledGlobals, overvoltInputs, Function.update_apply]
          norm_num)).2 (by norm_num [overvoltInputs])⟩

theorem lower_step (x k : Int) (c : Prop) [Decidable c] (hk : 0 ≤ k) (hx : 0 ≤ x) :
    0 ≤ (if c then max (x - k) 0 else x) ∧ x - k ≤ (if c then max (x - k) 0 else x)
      ∧ (if c then max (x - k) 0 else x) ≤ x := by
  split_ifs <;> omega

theorem band_step (x : Int) (c1 c2 : Prop) [Decidable c1] [Decidable c2]
    (hx : 0 ≤ x) (hx2 : x ≤ 255) :
    0 ≤ (if c1 then min (x + 5) 255 else if c2 then max (x - 5) 0 else x)
      ∧ x - 5 ≤ (if c1 then min (x + 5) 255 else if c2 then max (x - 5) 0 else x)
      ∧ (if c1 then min (x + 5) 255 else if c2 then max (x - 5) 0 else x) ≤ x + 5
      ∧ (¬ c1 → (if c1 then min (x + 5) 255 else if c2 then max (x - 5) 0 else x) ≤ x) := by
  split_ifs with a b
  · exact ⟨by omega, by omega, by omega, fun n => absurd a n⟩
  · exact ⟨by omega, by omega, by omega, fun _ => by omega⟩
  · exact ⟨by omega, by omega, by omega, fun _ => by omega⟩

theorem specRuleDuty_step (inp : Inputs) (tT vT aT : ℚ) (d : Int)
    (h0 : 0 ≤ d) (h1 : d ≤ 255) :
    d - 35 ≤ specRuleDuty inp tT vT aT d ∧ specRuleDuty inp tT vT aT d ≤ d + 5
      ∧ (specRuleDuty inp tT vT aT d > d → inp.volts < inp.voltTarget - 0.4) := by
  simp only [specRuleDuty]
  obtain ⟨a0, a1, a2⟩ := lower_step d 10 (inp.amps > inp.ampLimit) (by decide) h0
  generalize (if inp.amps > inp.ampLimit then max (d - 10) 0 else d) = d1 at a0 a1 a2 ⊢
  obtain ⟨b0, b1, b2, b3⟩ := band_step d1 (inp.volts < inp.voltTarget - 0.4)
    (inp.volts > inp.voltTarget + 0.2) a0 (by omega)
  generalize (if inp.volts < inp.voltTarget - 0.4 then min (d1 + 5) 255
    else if inp.volts > inp.voltTarget + 0.2 then max (d1 - 5) 0 else d1) = d2 at b0 b1 b2 b3 ⊢
  obtain ⟨c0, c1, c2⟩ := lower_step d2 10 (tT > 1.0) (by decide) b0
  generalize (if tT > 1.0 then max (d2 - 10) 0 else d2) = d3 at c0 c1 c2 ⊢
  obtain ⟨e0, e1, e2⟩ := lower_step d3 5 (aT > 10.0) (by decide) c0
  generalize (if aT > 10.0 then max (d3 - 5) 0 else d3) = d4 at e0 e1 e2 ⊢
  obtain ⟨f0, f1, f2⟩ := lower_step d4 5 (vT < -0.3) (by decide) e0
  generalize (if vT < -0.3 then max (d4 - 5) 0 else d4) = d5 at f0 f1 f2 ⊢
  refine ⟨by omega, by omega, fun h => by_contra fun low => ?_⟩
  have := b3 low
  omega

/-- C18: every call, the overtemperature case included, first stores this
tick's `tempC`, `volts`, `amps` in the three buffers at the cursor and advances
the cursor by one modulo 5; every other slot keeps its value; the trends the
rules use are those of the state after that; the buffers and the cursor the
call leaves are exactly that state's. -/
theorem tick_records_sample_first (g : Globals) (inp : Inputs) (hg : WellFormed g) :
    ∃ g1 tT vT aT o, updateTrends g inp.tempC inp.volts inp.amps = some g1
      ∧ g1.trendIndex = (g.trendIndex + 1) % 5
      ∧ (g1.tempHistory (slot g.trendIndex) = inp.tempC
          ∧ g1.voltHistory (slot g.trendIndex) = inp.volts
          ∧ g1.ampHistory (slot g.trendIndex) = inp.amps)
      ∧ (∀ i : Fin 5, i ≠ slot g.trendIndex →
          g1.tempHistory i = g.tempHistory i ∧ g1.voltHistory i = g.voltHistory i
            ∧ g1.ampHistory i = g.ampHistory i)
      ∧ computeTrend g1.trendIndex g1.tempHistory = some tT
      ∧ computeTrend g1.trendIndex g1.voltHistory = some vT
      ∧ computeTrend g1.trendIndex g1.ampHistory = some aT
      ∧ regulateFieldPWM g inp = some o
      ∧ o.ret = (if inp.tempC ≥ inp.tempLimit then 0
                 else specRuleDuty inp tT vT aT g.pwmDuty)
      ∧ o.log = (if inp.tempC ≥ inp.tempLimit then ["Overtemp Derate"]
                 else specRuleEvents inp tT vT aT)
      ∧ (o.globals.tempHistory = g1.tempHistory ∧ o.globals.voltHistory = g1.voltHistory
          ∧ o.globals.ampHistory = g1.ampHistory ∧ o.globals.trendIndex = g1.trendIndex) := by
  have e1 := updateTrends_of_wf g inp.tempC inp.volts inp.amps hg
  obtain ⟨c0, c5⟩ := recordSample_wellFormed g inp.tempC inp.volts inp.amps hg
  have ht := computeTrend_of_bounds _ (recordSample g inp.tempC inp.volts inp.amps).tempHistory
    c0 c5
  have hv := computeTrend_of_bounds _ (recordSample g inp.tempC inp.volts inp.amps).voltHistory
    c0 c5
  have ha := computeTrend_of_bounds _ (recordSample g inp.tempC inp.volts inp.amps).ampHistory
    c0 c5
  have e := regulateFieldPWM_of_trends g _ inp _ _ _ e1 ht hv ha
  have same : ∀ (h : History) (x : ℚ), Function.update h (slot g.trendIndex) x
      (slot g.trendIndex) = x := fun h x => Function.update_same _ _ _
  have other : ∀ i : Fin 5, i ≠ slot g.trendIndex →
      (recordSample g inp.tempC inp.volts inp.amps).tempHistory i = g.tempHistory i
        ∧ (recordSample g inp.tempC inp.volts inp.amps).voltHistory i = g.voltHistory i
        ∧ (recordSample g inp.tempC inp.volts inp.amps).ampHistory i = g.ampHistory i :=
    fun i hi => ⟨Function.update_noteq hi _ _, Function.update_noteq hi _ _,
      Function.update_noteq hi _ _⟩
  by_cases hot : inp.tempC ≥ inp.tempLimit
  · rw [if_pos hot] at e
    exact ⟨_, _, _, _, _, e1, rfl, ⟨same _ _, same _ _, same _ _⟩, other, ht, hv, ha, e,
      by rw [if_pos hot], by rw [if_pos hot], rfl, rfl, rfl, rfl⟩
  · rw [if_neg hot] at e
    exact ⟨_, _, _, _, _, e1, rfl, ⟨same _ _, same _ _, same _ _⟩, other, ht, hv, ha, e,
      by rw [if_neg hot]; rfl, by rw [if_neg hot], rfl, rfl, rfl, rfl⟩

/-- An instance of C18 on an overtemperature tick: buffers holding 10..50 with
the cursor at 3, and 105 degrees against a limit of 100.  The call returns 0,
slot 3 holds the new readings, slot 2 is untouched, the cursor is 4. -/
theorem tick_records_sample_first_witness :
    WellFormed rampGlobals ∧
    ∃ o, regulateFieldPWM rampGlobals hotInputs = some o ∧ o.ret = 0
      ∧ o.globals.trendIndex = 4
      ∧ o.globals.tempHistory 3 = 105 ∧ o.globals.voltHistory 3 = 14
      ∧ o.globals.ampHistory 3 = 20 ∧ o.globals.tempHistory 2 = 30 := by
  refine ⟨by decide, ?_⟩
  obtain ⟨g1, tT, vT, aT, o, -, hc, ⟨st, sv, sa⟩, hother, -, -, -, e, hr, -, hT, hV, hA, hI⟩ :=
    tick_records_sample_first rampGlobals hotInputs (by decide)
  have h3 : slot rampGlobals.trendIndex = 3 := by decide
  rw [h3] at st sv sa hother
  refine ⟨o, e, ?_, ?_, ?_, ?_, ?_, ?_⟩
  · rw [hr]
    norm_num [hotInputs]
  · rw [hI, hc]
    decide
  · rw [hT, st]
    rfl
  · rw [hV, sv]
    rfl
  · rw [hA, sa]
    rfl
  · rw [hT, (hother 2 (by decide)).1]
    simp [rampGlobals, rampHistory]

/-! ## The trend tracker, continued -/

theorem sampleAt_of_getElem (m : Metric) (samples : List Sample) (n : Nat) (s : Sample)
    (h : samples[n]? = some s) (j : Int) (hj : j = (n : Int) + 1) :
    sampleAt m samples j = m.value s := by
  subst hj
  have e : ((n : Int) + 1 - 1).toNat = n := by omega
  have pos : (0 : Int) < (n : Int) + 1 := by omega
  simp only [sampleAt, if_pos pos, e, h, Option.map_some', Option.getD_some]

/-- C19: after `initTrendBuffers` and `k >= 1` `updateTrends` calls recording
`s_1 .. s_k` for a metric, `computeTrend` of that metric's buffer returns
`(s_k - s_(k-3)) / 4`, where `s_j` is 0 for `j <= 0`. -/
theorem trend_of_sample_stream (m : Metric) (g0 : Globals) (samples : List Sample)
    (hk : 1 ≤ samples.length) :
    ∃ gi g, initTrendBuffers g0 = some gi ∧ recordAll gi samples = some g
      ∧ computeTrend g.trendIndex (m.history g)
          = some ((sampleAt m samples (samples.length : Int)
                    - sampleAt m samples ((samples.length : Int) - 3)) / 4) := by
  obtain ⟨g, e, hc, -, hs, hz⟩ := recordAll_from_zero g0.pwmDuty samples
  refine ⟨_, g, initTrendBuffers_eq g0, e, ?_⟩
  have c0 : 0 ≤ g.trendIndex := by rw [hc]; omega
  have c5 : g.trendIndex < 5 := by rw [hc]; omega
  rw [computeTrend_of_bounds _ _ c0 c5, slope, hc]
  have hlast : samples.length - 1 < samples.length := by omega
  have newest : slot (((samples.length % 5 : Nat) : Int) - 1)
      = slot ((samples.length - 1 : Nat) : Int) := by
    apply Fin.ext
    simp only [slot]
    omega
  have eNew : m.history g (slot (((samples.length % 5 : Nat) : Int) - 1))
      = sampleAt m samples (samples.length : Int) := by
    rw [newest, hs _ _ (List.getElem?_eq_getElem hlast) (by omega) m]
    exact (sampleAt_of_getElem m samples _ _ (List.getElem?_eq_getElem hlast) _
      (by omega)).symm
  have eOld : m.history g (slot (((samples.length % 5 : Nat) : Int) + 1))
      = sampleAt m samples ((samples.length : Int) - 3) := by
    by_cases h4 : 4 ≤ samples.length
    · have hlt : samples.length - 4 < samples.length := by omega
      have old : slot (((samples.length % 5 : Nat) : Int) + 1)
          = slot ((samples.length - 4 : Nat) : Int) := by
        apply Fin.ext
        simp only [slot]
        omega
      rw [old, hs _ _ (List.getElem?_eq_getElem hlt) (by omega) m]
      exact (sampleAt_of_getElem m samples _ _ (List.getElem?_eq_getElem hlt) _
        (by omega)).symm
    · have npos : ¬ (0 : Int) < (samples.length : Int) - 3 := by omega
      rw [sampleAt, if_neg npos]
      apply hz
      simp only [slot]
      omega
  rw [eNew, eOld]

/-- An instance of C19: five samples 1, 2, 3, 4, 5 of the temperature give
`(s_5 - s_2) / 4 = 3/4`. -/
theorem trend_of_sample_stream_witness :
    1 ≤ rampSamples.length ∧
    ∃ gi g, initTrendBuffers (startGlobals 0) = some gi ∧ recordAll gi rampSamples = some g
      ∧ computeTrend g.trendIndex g.tempHistory = some (3 / 4) := by
  refine ⟨by decide, ?_⟩
  obtain ⟨gi, g, e1, e2, e3⟩ :=
    trend_of_sample_stream Metric.temperature (startGlobals 0) rampSamples (by decide)
  refine ⟨gi, g, e1, e2, ?_⟩
  have e4 : computeTrend g.trendIndex g.tempHistory
      = computeTrend g.trendIndex (Metric.temperature.history g) := rfl
  rw [e4, e3]
  simp [sampleAt, rampSamples, Metric.value]
  norm_num

/-! ## Step size of one tick -/

/-- C20: below the temperature limit and from a stored duty in `[0,255]`, the
returned duty lies between `duty - 35` and `duty + 5`, and exceeds the stored
duty only if `volts < voltTarget - 0.4`.  Both bounds are attained:
`surgeInputs` on `surgeGlobals` fires overcurrent, overvoltage and the three
trend rules and returns `100 - 35`; `undervoltInputs` on a settled state returns
`100 + 5`. -/
theorem tick_step_bound (g : Globals) (inp : Inputs) (hg : WellFormed g)
    (cool : inp.tempC < inp.tempLimit) (h0 : 0 ≤ g.pwmDuty) (h1 : g.pwmDuty ≤ 255) :
    (∃ o, regulateFieldPWM g inp = some o
        ∧ g.pwmDuty - 35 ≤ o.ret ∧ o.ret ≤ g.pwmDuty + 5
        ∧ (o.ret > g.pwmDuty → inp.volts < inp.voltTarget - 0.4))
    ∧ (WellFormed surgeGlobals ∧ surgeInputs.tempC < surgeInputs.tempLimit
        ∧ 0 ≤ surgeGlobals.pwmDuty ∧ surgeGlobals.pwmDuty ≤ 255
        ∧ ∃ o, regulateFieldPWM surgeGlobals surgeInputs = some o
            ∧ o.ret = surgeGlobals.pwmDuty - 35
            ∧ o.log = ["Overcurrent", "Temp rising fast", "Amp rising fast",
                        "Voltage dropping"])
    ∧ (WellFormed (settledGlobals 20 100) ∧ undervoltInputs.tempC < undervoltInputs.tempLimit
        ∧ 0 ≤ (settledGlobals 20 100).pwmDuty ∧ (settledGlobals 20 100).pwmDuty ≤ 255
        ∧ ∃ o, regulateFieldPWM (settledGlobals 20 100) undervoltInputs = some o
            ∧ o.ret = (settledGlobals 20 100).pwmDuty + 5) := by
  refine ⟨?_, ⟨by decide, by norm_num [surgeInputs], by decide, by decide, ?_⟩,
    ⟨by decide, by norm_num [undervoltInputs], by decide, by decide, ?_⟩⟩
  · obtain ⟨g1, tT, vT, aT, e1, hd, ht, hv, ha⟩ := trends_defined g inp hg
    have e := regulateFieldPWM_of_trends g g1 inp tT vT aT e1 ht hv ha
    rw [if_neg (not_le.mpr cool), hd] at e
    exact ⟨_, e, specRuleDuty_step inp tT vT aT g.pwmDuty h0 h1⟩
  · refine ⟨_, regulateFieldPWM_closed _ _ (by decide), ?_, ?_⟩
    · simp [tickOutcome, specRuleDuty, slope, recordSample, surgeGlobals, surgeInputs,
        Function.update_apply]
      norm_num
    · simp [tickOutcome, specRuleEvents, slope, recordSample, surgeGlobals, surgeInputs,
        Function.update_apply]
      norm_num
  · refine ⟨_, regulateFieldPWM_closed _ _ (by decide), ?_⟩
    simp [tickOutcome, specRuleDuty, slope, recordSample, settledGlobals, undervoltInputs,
      Function.update_apply]
    norm_num

/-- An instance of C20: the first tick after program start with duty 100 and
`loadedInputs` returns a duty between 65 and 105. -/
theorem tick_step_bound_witness :
    ∃ o, regulateFieldPWM (startGlobals 100) loadedInputs = some o
      ∧ (startGlobals 100).pwmDuty - 35 ≤ o.ret ∧ o.ret ≤ (startGlobals 100).pwmDuty + 5
      ∧ (o.ret > (startGlobals 100).pwmDuty →
          loadedInputs.volts < loadedInputs.voltTarget - 0.4) :=
  (tick_step_bound (startGlobals 100) loadedInputs (by decide) (by norm_num [loadedInputs])
    (by decide) (by decide)).1

/-! ## PID regulator -/

theorem clamp_eq_specClamp (x : ℚ) : clamp x 0 1 = specClamp x 0 1 := by
  unfold clamp specClamp
  split_ifs with h1 h2
  · rw [min_eq_left (by linarith), max_eq_left (le_of_lt h1)]
  · rw [min_eq_right (le_of_lt h2), max_eq_right (by norm_num)]
  · rw [min_eq_left (not_lt.mp h2), max_eq_right (not_lt.mp h1)]

theorem specClamp_range (x : ℚ) : 0 ≤ specClamp x 0 1 ∧ specClamp x 0 1 ≤ 1 := by
  unfold specClamp
  exact ⟨le_max_left _ _, max_le (by norm_num) (min_le_right _ _)⟩

theorem div_of_ne (a b : ℚ) (hb : b ≠ 0) : FloatVal.div a b = FloatVal.finite (a / b) := by
  unfold FloatVal.div
  rw [if_neg hb]

/-- Closed form of `update` for a nonzero tick interval. -/
theorem update_of_ne (c : RegulateFieldPWM) (v : ℚ) (hdt : c.dt_ ≠ 0) :
    c.update v =
      (some (specClamp
          (c.kp_ * (c.targetVoltage_ - v)
            + c.ki_ * (c.integral_ + (c.targetVoltage_ - v) * c.dt_)
            + c.kd_ * ((c.targetVoltage_ - v - c.prevError_) / c.dt_)) 0 1),
       { c with integral_ := c.integral_ + (c.targetVoltage_ - v) * c.dt_
                prevError_ := c.targetVoltage_ - v }) := by
  simp only [RegulateFieldPWM.update, div_of_ne _ _ hdt, FloatVal.scale,
    FloatVal.addFinite, FloatVal.clamp, FloatVal.number, clamp_eq_specClamp]

/-- C12: for `dt != 0`, `update` forms `error = target - currentVoltage`, stores
`integral + error * dt` and `error`, and returns
`clamp(kp*error + ki*integral' + kd*(error - prevError)/dt, 0, 1)` with the new
integral and the old previous error; `kp`, `ki`, `kd`, `dt` and the target are
unchanged. -/
theorem pid_update_step (c : RegulateFieldPWM) (currentVoltage : ℚ) (hdt : c.dt_ ≠ 0) :
    (c.update currentVoltage).1
        = some (specClamp
            (c.kp_ * (c.targetVoltage_ - currentVoltage)
              + c.ki_ * (c.integral_ + (c.targetVoltage_ - currentVoltage) * c.dt_)
              + c.kd_ * ((c.targetVoltage_ - currentVoltage - c.prevError_) / c.dt_)) 0 1)
    ∧ (c.update currentVoltage).2.integral_
        = c.integral_ + (c.targetVoltage_ - currentVoltage) * c.dt_
    ∧ (c.update currentVoltage).2.prevError_ = c.targetVoltage_ - currentVoltage
    ∧ (c.update currentVoltage).2.kp_ = c.kp_ ∧ (c.update currentVoltage).2.ki_ = c.ki_
    ∧ (c.update currentVoltage).2.kd_ = c.kd_ ∧ (c.update currentVoltage).2.dt_ = c.dt_
    ∧ (c.update currentVoltage).2.targetVoltage_ = c.targetVoltage_ := by
  rw [update_of_ne c currentVoltage hdt]
  exact ⟨rfl, rfl, rfl, rfl, rfl, rfl, rfl, rfl⟩

/-- An instance of C12: `runningPid` reading 13.8 volts.  The error is 1/5, the
integral becomes 3 + 1/50, the raw output 2/5 + 151/100 - 3/10 = 161/100 is
clamped to 1. -/
theorem pid_update_step_witness :
    runningPid.dt_ ≠ 0
    ∧ (runningPid.update (69 / 5)).1 = some 1
    ∧ (runningPid.update (69 / 5)).2.integral_ = 151 / 50
    ∧ (runningPid.update (69 / 5)).2.prevError_ = 1 / 5 := by
  have h := pid_update_step runningPid (69 / 5) (by norm_num [runningPid])
  refine ⟨by norm_num [runningPid], ?_, ?_, ?_⟩
  · rw [h.1]
    norm_num [runningPid, specClamp]
  · rw [h.2.1]
    norm_num [runningPid]
  · rw [h.2.2.1]
    norm_num [runningPid]

/-- C13 fails for a tick interval of 0: `zeroDtPid` reading 13 volts divides
the error difference 1 by 0; the derivative is `+inf`, its product with
`kd = 0` is a NaN, the clamp passes the NaN on, and no duty in `[0,1]` comes
out. -/
theorem pid_no_duty_for_zero_dt :
    ¬ ∃ duty, (zeroDtPid.update 13).1 = some duty ∧ 0 ≤ duty ∧ duty ≤ 1 := by
  rintro ⟨duty, h, -⟩
  have hq : FloatVal.div (14 - 13 - 0) 0 = FloatVal.posInf := by
    norm_num [FloatVal.div]
  have hs : FloatVal.scale 0 FloatVal.posInf = FloatVal.nan := by
    norm_num [FloatVal.scale]
  simp only [RegulateFieldPWM.update, zeroDtPid, hq, hs, FloatVal.addFinite, FloatVal.clamp,
    FloatVal.number] at h
  cases h

/-- C13, amended: for every controller state with `dt != 0` and every
`currentVoltage`, `update` returns a duty with `0 <= duty <= 1`. -/
theorem pid_duty_in_unit_interval (c : RegulateFieldPWM) (currentVoltage : ℚ)
    (hdt : c.dt_ ≠ 0) :
    ∃ duty, (c.update currentVoltage).1 = some duty ∧ 0 ≤ duty ∧ duty ≤ 1 := by
  rw [update_of_ne c currentVoltage hdt]
  exact ⟨_, rfl, specClamp_range _⟩

/-- An instance of the amended C13 on a controller with very large gains and
memory and an implausible reading. -/
theorem pid_duty_in_unit_interval_witness :
    extremePid.dt_ ≠ 0
    ∧ ∃ duty, (extremePid.update 999999999).1 = some duty ∧ 0 ≤ duty ∧ duty ≤ 1 :=
  ⟨by norm_num [extremePid],
    pid_duty_in_unit_interval extremePid 999999999 (by norm_num [extremePid])⟩

theorem update_state (c : RegulateFieldPWM) (v : ℚ) :
    (c.update v).2 = { c with integral_ := c.integral_ + (c.targetVoltage_ - v) * c.dt_
                              prevError_ := c.targetVoltage_ - v } := rfl

theorem updates_cons (c : RegulateFieldPWM) (v : ℚ) (rest : List ℚ) :
    c.updates (v :: rest)
      = ((c.update v).1 :: ((c.update v).2.updates rest).1, ((c.update v).2.updates rest).2) :=
  rfl

/-- A run of `update` calls changes neither the gains, the tick nor the target. -/
theorem updates_frame (readings : List ℚ) :
    ∀ c : RegulateFieldPWM, (c.updates readings).2.kp_ = c.kp_
      ∧ (c.updates readings).2.ki_ = c.ki_ ∧ (c.updates readings).2.kd_ = c.kd_
      ∧ (c.updates readings).2.dt_ = c.dt_
      ∧ (c.updates readings).2.targetVoltage_ = c.targetVoltage_ := by
  induction readings with
  | nil => exact fun c => ⟨rfl, rfl, rfl, rfl, rfl⟩
  | cons v rest ih =>
    intro c
    rw [updates_cons]
    exact ih (c.update v).2

theorem setTargetVoltage_eq_of_gains (c1 c2 : RegulateFieldPWM) (v : ℚ)
    (hkp : c1.kp_ = c2.kp_) (hki : c1.ki_ = c2.ki_) (hkd : c1.kd_ = c2.kd_)
    (hdt : c1.dt_ = c2.dt_) :
    c1.setTargetVoltage v = c2.setTargetVoltage v := by
  simp only [RegulateFieldPWM.setTargetVoltage, hkp, hki, hkd, hdt]

/-- C14: two controllers with the same gains and tick, whatever their target,
previous error and integral, behave identically after `setTargetVoltage v`:
every run of `update` calls on the same readings returns the same duties and
leaves the same object.  For `dt != 0` the first `update c` after the reset
returns `clamp(kp*e + ki*e*dt + kd*e/dt, 0, 1)` with `e = v - c`.
`setTargetVoltage` leaves `kp`, `ki`, `kd`, `dt` unchanged. -/
theorem pid_reset_forgets (c1 c2 : RegulateFieldPWM) (v : ℚ)
    (hkp : c1.kp_ = c2.kp_) (hki : c1.ki_ = c2.ki_) (hkd : c1.kd_ = c2.kd_)
    (hdt : c1.dt_ = c2.dt_) :
    (∀ readings : List ℚ,
        (c1.setTargetVoltage v).updates readings = (c2.setTargetVoltage v).updates readings)
    ∧ (c1.dt_ ≠ 0 → ∀ c : ℚ,
        ((c1.setTargetVoltage v).update c).1
          = some (specClamp (c1.kp_ * (v - c) + c1.ki_ * (v - c) * c1.dt_
                              + c1.kd_ * (v - c) / c1.dt_) 0 1))
    ∧ ((c1.setTargetVoltage v).kp_ = c1.kp_ ∧ (c1.setTargetVoltage v).ki_ = c1.ki_
        ∧ (c1.setTargetVoltage v).kd_ = c1.kd_ ∧ (c1.setTargetVoltage v).dt_ = c1.dt_) := by
  refine ⟨fun readings => ?_, fun h c => ?_, rfl, rfl, rfl, rfl⟩
  · rw [setTargetVoltage_eq_of_gains c1 c2 v hkp hki hkd hdt]
  · rw [update_of_ne _ c (show (c1.setTargetVoltage v).dt_ ≠ 0 from h)]
    simp only [RegulateFieldPWM.setTargetVoltage, sub_zero, zero_add, mul_div_assoc,
      mul_assoc]

/-- An instance of C14: `runningPid` and `otherRunningPid` differ in target,
previous error and integral; after `setTargetVoltage 14` they return the same
duties on the readings 13.9, 13.95 and are left in the same state, and the
first duty is `clamp(2*(1/10) + (1/2)*(1/10)*(1/10) + (1/10)*(1/10)/(1/10))`,
that is 61/200. -/
theorem pid_reset_forgets_witness :
    (runningPid.setTargetVoltage 14).updates [139 / 10, 279 / 20]
        = (otherRunningPid.setTargetVoltage 14).updates [139 / 10, 279 / 20]
    ∧ ((runningPid.setTargetVoltage 14).update (139 / 10)).1 = some (61 / 200) := by
  have h := pid_reset_forgets runningPid otherRunningPid 14 rfl rfl rfl rfl
  refine ⟨h.1 _, ?_⟩
  rw [h.2.1 (by norm_num [runningPid]) (139 / 10)]
  norm_num [runningPid, specClamp]

theorem updates_proportional (readings : List ℚ) :
    ∀ c : RegulateFieldPWM, c.ki_ = 0 → c.kd_ = 0 → c.dt_ ≠ 0 →
      (c.updates readings).1
        = readings.map (fun x => some (specClamp (c.kp_ * (c.targetVoltage_ - x)) 0 1)) := by
  induction readings with
  | nil => exact fun c _ _ _ => rfl
  | cons v rest ih =>
    intro c hki hkd hdt
    rw [updates_cons, List.map_cons]
    have hrest := ih (c.update v).2 hki hkd hdt
    rw [update_state] at hrest
    rw [update_state, hrest, update_of_ne c v hdt, hki, hkd]
    simp only [zero_mul, add_zero]

/-- C15: a controller constructed with `ki = 0`, `kd = 0` and `dt != 0`, after
`setTargetVoltage t`, returns `clamp(kp * (t - c), 0, 1)` on every `update c`
of every run of readings: neither `dt` nor the earlier readings matter. -/
theorem pid_proportional_only (kp dt t : ℚ) (hdt : dt ≠ 0) (readings : List ℚ) :
    (((RegulateFieldPWM.ctor kp 0 0 dt).setTargetVoltage t).updates readings).1
      = readings.map (fun c => some (specClamp (kp * (t - c)) 0 1)) :=
  updates_proportional readings ((RegulateFieldPWM.ctor kp 0 0 dt).setTargetVoltage t)
    rfl rfl hdt

/-- Scenario 4 as an instance of C15: `kp = 10`, target 14, reading 13 returns 1
(10 clamped), here after two earlier readings and with a tick of 1/100. -/
theorem pid_proportional_only_witness :
    (((RegulateFieldPWM.ctor 10 0 0 (1 / 100)).setTargetVoltage 14).updates
        [15, 1399 / 100, 13]).1
      = [some 0, some (1 / 10), some 1] := by
  rw [pid_proportional_only 10 (1 / 100) 14 (by norm_num) [15, 1399 / 100, 13]]
  norm_num [specClamp]

theorem calls_dt (calls : List PidCall) :
    ∀ c : RegulateFieldPWM, (c.calls calls).dt_ = c.dt_ := by
  induction calls with
  | nil => exact fun c => rfl
  | cons call rest ih =>
    intro c
    cases call with
    | setTargetVoltage v => exact ih (c.setTargetVoltage v)
    | update v => exact ih (c.update v).2

/-- With a tick interval of 0 the model follows the IEEE evaluation of the
code: `ctor(1,1,1,0).update(13)` has error -13, derivative `-inf`, raw output
`-inf`, which `std::clamp` turns into 0; after `setTargetVoltage(14)` the error
is 1, the raw output `+inf`, and the clamp returns 1. -/
theorem update_with_zero_dt_examples :
    ((RegulateFieldPWM.ctor 1 1 1 0).update 13).1 = some 0
    ∧ (((RegulateFieldPWM.ctor 1 1 1 0).setTargetVoltage 14).update 13).1 = some 1 := by
  have hn : FloatVal.div (0 - 13 - 0) 0 = FloatVal.negInf := by norm_num [FloatVal.div]
  have hp : FloatVal.div (14 - 13 - 0) 0 = FloatVal.posInf := by norm_num [FloatVal.div]
  have sn : FloatVal.scale 1 FloatVal.negInf = FloatVal.negInf := by norm_num [FloatVal.scale]
  have sp : FloatVal.scale 1 FloatVal.posInf = FloatVal.posInf := by norm_num [FloatVal.scale]
  constructor
  · simp only [RegulateFieldPWM.update, RegulateFieldPWM.ctor, hn, sn, FloatVal.addFinite,
      FloatVal.clamp, FloatVal.number]
  · simp only [RegulateFieldPWM.update, RegulateFieldPWM.ctor,
      RegulateFieldPWM.setTargetVoltage, hp, sp, FloatVal.addFinite, FloatVal.clamp,
      FloatVal.number]

/-- C16 fails for the PID regulator: the constructor accepts a tick interval
of 0; the controller it produces has `dt_ = 0`, and its `update` divides by
that zero (reading 13: the quotient `-13 / 0` is `-inf`). -/
theorem constructor_accepts_zero_dt :
    ¬ (RegulateFieldPWM.ctor 1 1 1 0).dt_ ≠ 0
    ∧ FloatVal.div (0 - 13 - 0) (RegulateFieldPWM.ctor 1 1 1 0).dt_ = FloatVal.negInf := by
  refine ⟨fun h => h rfl, ?_⟩
  simp [FloatVal.div, RegulateFieldPWM.ctor]

/-- C16, amended: `computeTrend` divides by the constant
`(TREND_SIZE - 1) * 1.0 = 4`.  `update` divides by `dt_`, which after any
sequence of `setTargetVoltage` and `update` calls is still the `dt` given to
the constructor, so the divisor is nonzero exactly when the controller was
constructed with a `dt` other than 0; in that case the quotient is a number
and `update` returns a number. -/
theorem divisors_of_the_core (kp ki kd dt : ℚ) (calls : List PidCall) (v : ℚ) :
    (trendSeconds = 4 ∧ trendSeconds ≠ 0)
    ∧ ((RegulateFieldPWM.ctor kp ki kd dt).calls calls).dt_ = dt
    ∧ (((RegulateFieldPWM.ctor kp ki kd dt).calls calls).dt_ ≠ 0 ↔ dt ≠ 0)
    ∧ (dt ≠ 0 →
        (∀ a : ℚ, FloatVal.div a ((RegulateFieldPWM.ctor kp ki kd dt).calls calls).dt_
            = FloatVal.finite (a / dt))
        ∧ ∃ duty,
            (((RegulateFieldPWM.ctor kp ki kd dt).calls calls).update v).1 = some duty) := by
  have hdt : ((RegulateFieldPWM.ctor kp ki kd dt).calls calls).dt_ = dt := calls_dt calls _
  refine ⟨⟨trendSeconds_eq, by rw [trendSeconds_eq]; norm_num⟩, hdt, by rw [hdt],
    fun h => ⟨fun a => ?_, ?_⟩⟩
  · rw [hdt, div_of_ne a dt h]
  · rw [update_of_ne _ v (by rw [hdt]; exact h)]
    exact ⟨_, rfl⟩

/-- An instance of the amended C16: a controller constructed with a tick of
1/10 still divides by 1/10 and returns a number after a target change and two
updates. -/
theorem divisors_of_the_core_witness :
    (1 / 10 : ℚ) ≠ 0
    ∧ ((RegulateFieldPWM.ctor 2 (1 / 2) (1 / 10) (1 / 10)).calls
        [PidCall.setTargetVoltage 14, PidCall.update 13, PidCall.update (27 / 2)]).dt_
          = 1 / 10
    ∧ ∃ duty, (((RegulateFieldPWM.ctor 2 (1 / 2) (1 / 10) (1 / 10)).calls
        [PidCall.setTargetVoltage 14, PidCall.update 13, PidCall.update (27 / 2)]).update
          (69 / 5)).1 = some duty :=
  ⟨by norm_num,
    (divisors_of_the_core 2 (1 / 2) (1 / 10) (1 / 10)
      [PidCall.setTargetVoltage 14, PidCall.update 13, PidCall.update (27 / 2)]
      (69 / 5)).2.1,
    ((divisors_of_the_core 2 (1 / 2) (1 / 10) (1 / 10)
      [PidCall.setTargetVoltage 14, PidCall.update 13, PidCall.update (27 / 2)]
      (69 / 5)).2.2.2 (by norm_num)).2⟩

theorem updates_integral (readings : List ℚ) :
    ∀ c : RegulateFieldPWM, (c.updates readings).2.integral_
      = c.integral_ + c.dt_ * (readings.map (fun x => c.targetVoltage_ - x)).sum := by
  induction readings with
  | nil =>
    intro c
    simp [RegulateFieldPWM.updates]
  | cons v rest ih =>
    intro c
    rw [updates_cons, ih (c.update v).2, update_state]
    simp only [List.map_cons, List.sum_cons]
    ring

theorem getLast?_map_getD (f : ℚ → ℚ) (v p : ℚ) (rest : List ℚ) :
    (((v :: rest).getLast?).map f).getD p = ((rest.getLast?).map f).getD (f v) := by
  cases rest with
  | nil => rfl
  | cons a r =>
    rw [List.getLast?_cons_cons]
    cases h : (a :: r).getLast? with
    | none => simp at h
    | some x => rfl

theorem updates_prevError (readings : List ℚ) :
    ∀ c : RegulateFieldPWM, (c.updates readings).2.prevError_
      = ((readings.getLast?).map (fun x => c.targetVoltage_ - x)).getD c.prevError_ := by
  induction readings with
  | nil => exact fun c => rfl
  | cons v rest ih =>
    intro c
    rw [updates_cons, ih (c.update v).2, update_state, getLast?_map_getD]

theorem specClamp_of_one_le (x : ℚ) (h : 1 ≤ x) : specClamp x 0 1 = 1 := by
  unfold specClamp
  rw [min_eq_right h, max_eq_right (by norm_num)]

/-- With a constant error `e > 0`, `kp * e >= 1` and nonnegative `ki`, `kd`,
integral and derivative, every duty of a run is 1. -/
theorem updates_saturated (t e : ℚ) (he : 0 < e) (n : Nat) :
    ∀ c : RegulateFieldPWM, c.targetVoltage_ = t → 1 ≤ c.kp_ * e → 0 ≤ c.ki_ → 0 ≤ c.kd_ →
      0 < c.dt_ → 0 ≤ c.integral_ → c.prevError_ ≤ e →
      (c.updates (List.replicate n (t - e))).1 = List.replicate n (some 1) := by
  induction n with
  | zero => exact fun c _ _ _ _ _ _ _ => rfl
  | succ n ih =>
    intro c ht hkp hki hkd hdt hint hprev
    have herr : c.targetVoltage_ - (t - e) = e := by rw [ht]; ring
    rw [List.replicate_succ, updates_cons, List.replicate_succ]
    have hnext := ih (c.update (t - e)).2 ht hkp hki hkd hdt
      (by rw [update_state, herr]; exact add_nonneg hint (le_of_lt (mul_pos he hdt)))
      (by rw [update_state, herr])
    rw [hnext, update_of_ne c (t - e) (ne_of_gt hdt), herr]
    have h1 : 0 ≤ c.ki_ * (c.integral_ + e * c.dt_) :=
      mul_nonneg hki (add_nonneg hint (le_of_lt (mul_pos he hdt)))
    have h2 : 0 ≤ c.kd_ * ((e - c.prevError_) / c.dt_) :=
      mul_nonneg hkd (div_nonneg (by linarith) (le_of_lt hdt))
    rw [specClamp_of_one_le _ (by linarith)]

/-- C17: after `setTargetVoltage t` and `update` calls with readings
`c_1 .. c_n` the stored integral is `dt * sum (t - c_i)` and the stored previous
error is `t - c_n` (0 for no call), whatever was clamped.  With a constant
error `e > 0`, `kp * e >= 1`, `ki, kd >= 0` and `dt > 0`, every one of `n`
updates returns exactly 1 while the integral is `n * e * dt`, which exceeds
every bound for `n` large enough. -/
theorem pid_integral_unclamped (c : RegulateFieldPWM) (t : ℚ) :
    (∀ readings : List ℚ,
        ((c.setTargetVoltage t).updates readings).2.integral_
            = c.dt_ * (readings.map (fun x => t - x)).sum
        ∧ ((c.setTargetVoltage t).updates readings).2.prevError_
            = ((readings.getLast?).map (fun x => t - x)).getD 0)
    ∧ (∀ e : ℚ, 0 < e → 1 ≤ c.kp_ * e → 0 ≤ c.ki_ → 0 ≤ c.kd_ → 0 < c.dt_ →
        (∀ n : Nat,
            ((c.setTargetVoltage t).updates (List.replicate n (t - e))).1
                = List.replicate n (some 1)
            ∧ ((c.setTargetVoltage t).updates (List.replicate n (t - e))).2.integral_
                = n * e * c.dt_)
        ∧ ∀ B : ℚ, ∃ n : Nat,
            B < ((c.setTargetVoltage t).updates (List.replicate n (t - e))).2.integral_) := by
  have hint : ∀ readings : List ℚ,
      ((c.setTargetVoltage t).updates readings).2.integral_
        = c.dt_ * (readings.map (fun x => t - x)).sum := by
    intro readings
    rw [updates_integral]
    simp only [RegulateFieldPWM.setTargetVoltage, zero_add]
  have hrep : ∀ (e : ℚ) (n : Nat),
      ((c.setTargetVoltage t).updates (List.replicate n (t - e))).2.integral_
        = n * e * c.dt_ := by
    intro e n
    rw [hint, List.map_replicate, List.sum_replicate, sub_sub_cancel, nsmul_eq_mul]
    ring
  refine ⟨fun readings => ⟨hint readings, ?_⟩, fun e he hkp hki hkd hdt => ⟨fun n => ⟨?_, hrep e n⟩,
    fun B => ?_⟩⟩
  · rw [updates_prevError]
    rfl
  · exact updates_saturated t e he n (c.setTargetVoltage t) rfl hkp hki hkd hdt
      (le_refl _) (le_of_lt he)
  · obtain ⟨n, hn⟩ := exists_nat_gt (B / (e * c.dt_))
    refine ⟨n, ?_⟩
    rw [hrep e n, mul_assoc]
    exact (div_lt_iff₀ (mul_pos he hdt)).mp hn

/-- An instance of C17: `runningPid`, target 14, constant reading 13 (error 1,
`kp * e = 2`).  Three updates all return 1 and leave the integral at 3/10;
twenty thousand updates leave it above 1000. -/
theorem pid_integral_unclamped_witness :
    ((runningPid.setTargetVoltage 14).updates (List.replicate 3 (14 - 1))).1
        = List.replicate 3 (some 1)
    ∧ ((runningPid.setTargetVoltage 14).updates (List.replicate 3 (14 - 1))).2.integral_
        = 3 / 10
    ∧ (1000 : ℚ)
        < ((runningPid.setTargetVoltage 14).updates (List.replicate 20000 (14 - 1))).2.integral_ := by
  have h := (pid_integral_unclamped runningPid 14).2 1 (by norm_num)
    (by norm_num [runningPid]) (by norm_num [runningPid]) (by norm_num [runningPid])
    (by norm_num [runningPid])
  refine ⟨(h.1 3).1, ?_, ?_⟩
  · rw [(h.1 3).2]
    norm_num [runningPid]
  · rw [(h.1 20000).2]
    norm_num [runningPid]

end AlternatorReg
